import Mathlib

/-!
A shallow embedding of the CDCL SAT solver core of this repository
(`src/ASSAT_Cadical/src/minisat/core/Solver.cc`, a modified MiniSat).

Machine integers of the source are modelled by `Nat`/`Int` (no overflow is
relevant to the verified paths), C++ `double` activity scores and decay
factors by exact rationals (`Rat`), and the floating-point linear
congruential random generator (`drand`, whose definition lives in a header
that is not part of the reviewed sources) by an explicit stream of rational
draws in [0,1).  Fallible or possibly diverging loops take explicit fuel and
return `Option`.

The helper functions whose bodies live in `Solver.h` / the `mtl` headers
(not part of the reviewed sources) are modelled from the spec and from the
call sites in `Solver.cc`; each such definition carries a doc comment
starting with `Modelled from the spec:`.
-/

namespace Minisat

/-- The three-valued assignment type `lbool` of MiniSat
(`l_True`, `l_False`, `l_Undef`). -/
inductive LBool where
  | ltrue : LBool
  | lfalse : LBool
  | lundef : LBool
deriving DecidableEq, Repr

/-- Negation on `lbool`: swaps true and false, fixes undef. -/
def LBool.neg : LBool → LBool
  | .ltrue => .lfalse
  | .lfalse => .ltrue
  | .lundef => (.lundef)

/- Variables (`Var` in `SolverTypes.h`) are dense nonnegative indices,
modelled as plain `Nat`.  Literals (`Lit`) are encoded as
`2*var + sign-bit`, exactly the MiniSat encoding
(`mkLit(var, sign) = var + var + (int)sign`); they are also plain `Nat`. -/

/-- `mkLit(var, sign)`: build a literal from a variable and a sign bit. -/
def mkLit (v : Nat) (sign : Bool) : Nat := 2 * v + (if sign then 1 else 0)

/-- `sign(p)`: the sign bit of a literal (true means negated). -/
def litSign (p : Nat) : Bool := p % 2 = 1

/-- `var(p)`: the variable of a literal. -/
def litVar (p : Nat) : Nat := p / 2

/-- `~p`: literal complement, flips the low bit (`p.x ^ 1`). -/
def litNeg (p : Nat) : Nat := if p % 2 = 1 then p - 1 else p + 1

/-- A clause of the clause arena: its literal sequence (mutable in the
source: the first two are the watched literals), the learnt flag, the
garbage mark (`mark()`, 1 = deleted), the activity (meaningful for learnt
clauses), and the relocation forward pointer used by garbage collection
(`reloced()` / `relocation()`). -/
structure Clause where
  lits : List Nat
  learnt : Bool
  mark : Nat
  act : Rat
  relocedTo : Option Nat
deriving DecidableEq, Repr

/-- `c.size()`. -/
def Clause.size (c : Clause) : Nat := c.lits.length

/-- A watch-list entry: clause reference plus blocking literal
(`Watcher` in `SolverTypes.h`, modelled from the spec: "per-literal list of
(clause-handle, blocking-literal) pairs"). -/
structure Watcher where
  cref : Nat
  blocker : Nat
deriving DecidableEq, Repr

/-- Per-variable metadata: reason clause (none = `CRef_Undef`) and decision
level, as stored by `mkVarData`. -/
structure VarData where
  reason : Option Nat
  level : Nat
deriving DecidableEq, Repr

/-- `mkVarData(cr, l)`. -/
def mkVarData (cr : Option Nat) (l : Nat) : VarData := ⟨cr, l⟩

/-- The solver state: the member variables of `class Solver` that the
verified code paths read or write.  Statistics that are only printed are
omitted.  `watchesOcc`/`watchesDirty` model the `OccLists` structure
(occurrence lists indexed by literal plus lazy-deletion dirty flags);
`randStream` models the random number generator as a stream of draws. -/
structure Solver where
  -- user-settable parameters (mirroring the constructor's option defaults)
  var_decay : Rat
  clause_decay : Rat
  random_var_freq : Rat
  luby_restart : Bool
  ccmin_mode : Nat
  phase_saving : Nat
  rnd_pol : Bool
  rnd_init_act : Bool
  garbage_frac : Rat
  min_learnts_lim : Nat
  restart_first : Nat
  restart_inc : Rat
  default_upol : Bool
  var_decay1 : Rat
  learntsize_factor : Rat
  learntsize_inc : Rat
  learntsize_adjust_start_confl : Rat
  learntsize_adjust_inc : Rat
  -- statistics read by control flow or by the claims
  solves : Nat
  starts : Nat
  decisions : Nat
  rnd_decisions : Nat
  propagations : Nat
  conflicts : Nat
  dec_vars : Nat
  num_clauses : Nat
  num_learnts : Nat
  clauses_literals : Nat
  learnts_literals : Nat
  max_literals : Nat
  tot_literals : Nat
  -- solver state
  ca : List Clause
  wasted : Nat
  clauses : List Nat
  learnts : List Nat
  trail : List Nat
  trail_lim : List Nat
  assumptions : List Nat
  assigns : List LBool
  polarity : List Bool
  first_polarity : List Bool
  user_pol : List LBool
  decision : List Bool
  vardata : List VarData
  watchesOcc : List (List Watcher)
  watchesDirty : List Bool
  activity : List Rat
  seen : List Nat
  order_heap : List Nat
  ok : Bool
  cla_inc : Rat
  var_inc : Rat
  var_inc1 : Rat
  qhead : Nat
  simpDB_assigns : Int
  simpDB_props : Int
  next_var : Nat
  free_vars : List Nat
  released_vars : List Nat
  model : List LBool
  conflict : List Nat
  addClause_SingleLitReturned : Bool
  addClause_SingleLit : Nat
  max_learnts : Rat
  learntsize_adjust_confl : Rat
  learntsize_adjust_cnt : Int
  conflict_budget : Int
  propagation_budget : Int
  asynch_interrupt : Bool
  randStream : List Rat

namespace Solver

/-- Modelled from the spec: `decisionLevel()` returns the number of trail
limits, i.e. the count of open decision levels. -/
def decisionLevel (st : Solver) : Nat := st.trail_lim.length

/-- Modelled from the spec: `nVars()` is the number of created variables. -/
def nVars (st : Solver) : Nat := st.next_var

/-- Modelled from the spec: `nAssigns()` is the trail size. -/
def nAssigns (st : Solver) : Nat := st.trail.length

/-- Modelled from the spec: `nClauses()` / `nLearnts()` report the clause
counters maintained by `attachClause`/`detachClause`. -/
def nClauses (st : Solver) : Nat := st.num_clauses

/-- Modelled from the spec: learnt-clause counter accessor. -/
def nLearnts (st : Solver) : Nat := st.num_learnts

/-- Modelled from the spec: `value(Var x)` reads the current assignment. -/
def valueVar (st : Solver) (x : Nat) : LBool := st.assigns.getD x (.lundef)

/-- Modelled from the spec: `value(Lit p) = assigns[var(p)] ^ sign(p)`. -/
def valueLit (st : Solver) (p : Nat) : LBool :=
  if litSign p then (st.valueVar (litVar p)).neg else st.valueVar (litVar p)

/-- Modelled from the spec: `reason(Var x) = vardata[x].reason`. -/
def reason (st : Solver) (x : Nat) : Option Nat :=
  (st.vardata.getD x ⟨none, 0⟩).reason

/-- Modelled from the spec: `level(Var x) = vardata[x].level`. -/
def level (st : Solver) (x : Nat) : Nat := (st.vardata.getD x ⟨none, 0⟩).level

/-- Modelled from the spec: `newDecisionLevel()` pushes the current trail
size on the trail-limit stack. -/
def newDecisionLevel (st : Solver) : Solver :=
  { st with trail_lim := st.trail_lim ++ [st.trail.length] }

/-- Modelled from the spec: `drand(seed)` draws the next number in [0,1)
from the random stream (the source uses a floating-point linear
congruential generator seeded by `random_seed`; the draws are modelled as
an explicit stream consumed one value per call). -/
def drand (st : Solver) : Rat × Solver :=
  match st.randStream with
  | [] => (0, st)
  | r :: rest => (r, { st with randStream := rest })

/-- Modelled from the spec: `irand(seed, size) = (int)(drand(seed) * size)`,
a uniformly random index below `size`. -/
def irand (st : Solver) (size : Nat) : Nat × Solver :=
  let (r, st1) := st.drand
  ((r * size).floor.toNat, st1)

end Solver

instance : Inhabited Clause := ⟨⟨[], false, 0, 0, none⟩⟩

/-- Write `x` at index `i`, growing the list with `dflt` first if needed
(the `IntMap`/`vec::growTo`-backed `insert` of the source containers). -/
def listInsert {α : Type} (l : List α) (i : Nat) (x : α) (dflt : α) : List α :=
  (if l.length ≤ i then l ++ List.replicate (i + 1 - l.length) dflt else l).set i x

/-- Modelled from the spec: `sort(ps)` of `mtl/Sort.h` orders the literal
vector ascending by the literal's integer code (`Lit::operator<`). -/
def sortLits (l : List Nat) : List Nat :=
  List.insertionSort (fun a b => a ≤ b) l

namespace Solver

/-- Modelled from the spec: `order_heap.insert` of the activity-ordered
priority structure; `insertVarOrder(x)` inserts `x` when it is a decision
variable not already present. -/
def insertVarOrder (x : Nat) (st : Solver) : Solver :=
  if x ∈ st.order_heap ∨ st.decision.getD x false = false then st
  else { st with order_heap := st.order_heap ++ [x] }

/-- Modelled from the spec: `setDecisionVar(v, b)` updates the
decision-eligibility flag, the `dec_vars` counter, and the heap. -/
def setDecisionVar (v : Nat) (b : Bool) (st : Solver) : Solver :=
  let st1 :=
    if b ∧ st.decision.getD v false = false then
      { st with dec_vars := st.dec_vars + 1 }
    else if ¬ b ∧ st.decision.getD v false then
      { st with dec_vars := st.dec_vars - 1 }
    else st
  let st2 := { st1 with decision := listInsert st1.decision v b false }
  insertVarOrder v st2

/-- `newVar(upol, dvar)`: create a new variable, reusing a freed index if
one exists, and initialise its watch lists, assignment, metadata, activity,
polarity fields and decision status. -/
def newVar (upol : LBool) (dvar : Bool) (st : Solver) : Nat × Solver :=
  let (v, st1) :=
    match st.free_vars.getLast? with
    | some v => (v, { st with free_vars := st.free_vars.dropLast })
    | none => (st.next_var, { st with next_var := st.next_var + 1 })
  -- watches.init(mkLit(v, false)); watches.init(mkLit(v, true))
  let grow := fun (l : List (List Watcher)) =>
    if l.length ≤ mkLit v true then
      l ++ List.replicate (mkLit v true + 1 - l.length) []
    else l
  let growD := fun (l : List Bool) =>
    if l.length ≤ mkLit v true then
      l ++ List.replicate (mkLit v true + 1 - l.length) false
    else l
  let (actInit, st2) :=
    if st1.rnd_init_act then
      let (r, s) := st1.drand
      (r * (1 / 100000 : Rat), s)
    else ((0 : Rat), st1)
  let st3 :=
    { st2 with
      watchesOcc := grow st2.watchesOcc
      watchesDirty := growD st2.watchesDirty
      assigns := listInsert st2.assigns v .lundef (.lundef)
      vardata := listInsert st2.vardata v (mkVarData none 0) (mkVarData none 0)
      activity := listInsert st2.activity v actInit 0
      seen := listInsert st2.seen v 0 0
      first_polarity := listInsert st2.first_polarity v false false
      polarity := listInsert st2.polarity v st2.default_upol false
      user_pol := listInsert st2.user_pol v upol .lundef }
  (v, setDecisionVar v dvar st3)

/-- Push a watcher on the watch list of literal `p`. -/
def occPush (p : Nat) (w : Watcher) (st : Solver) : Solver :=
  { st with watchesOcc := listInsert st.watchesOcc p (st.watchesOcc.getD p [] ++ [w]) [] }

/-- `OccLists::lookup(p)`: return the watch list of `p`, first lazily
removing watchers of deleted clauses when the list is flagged dirty. -/
def watchesLookup (p : Nat) (st : Solver) : List Watcher × Solver :=
  let ws0 := st.watchesOcc.getD p []
  if st.watchesDirty.getD p false then
    let ws := ws0.filter (fun w => (st.ca.getD w.cref default).mark ≠ 1)
    (ws,
      { st with
        watchesOcc := listInsert st.watchesOcc p ws []
        watchesDirty := listInsert st.watchesDirty p false false })
  else (ws0, st)

/-- `OccLists::smudge(p)`: flag the watch list of `p` dirty. -/
def occSmudge (p : Nat) (st : Solver) : Solver :=
  { st with watchesDirty := listInsert st.watchesDirty p true false }

/-- `attachClause(cr)`: register the first two literals of the clause in
the watch lists of their negations and update the clause statistics. -/
def attachClause (cr : Nat) (st : Solver) : Solver :=
  let c := st.ca.getD cr default
  let st1 := occPush (litNeg (c.lits.getD 0 0)) ⟨cr, c.lits.getD 1 0⟩ st
  let st2 := occPush (litNeg (c.lits.getD 1 0)) ⟨cr, c.lits.getD 0 0⟩ st1
  if c.learnt then
    { st2 with num_learnts := st2.num_learnts + 1
               learnts_literals := st2.learnts_literals + c.size }
  else
    { st2 with num_clauses := st2.num_clauses + 1
               clauses_literals := st2.clauses_literals + c.size }

/-- `uncheckedEnqueue(p, from)`: record the assignment making `p` true,
with its reason clause and the current decision level, and push it on the
trail. -/
def uncheckedEnqueue (p : Nat) (rsn : Option Nat) (st : Solver) : Solver :=
  { st with
    assigns := st.assigns.set (litVar p) (if litSign p then .lfalse else .ltrue)
    vardata := listInsert st.vardata (litVar p)
      (mkVarData rsn st.decisionLevel) (mkVarData none 0)
    trail := st.trail ++ [p] }

/-- Scan `c.lits` from index `k` for a literal whose value is not false
(the `for (int k = 2; ...)` replacement-watch search in `propagate`). -/
def findNonFalse (st : Solver) : List Nat → Nat → Option Nat
  | [], _ => none
  | l :: ls, k =>
    if st.valueLit l ≠ .lfalse then some k else findNonFalse st ls (k + 1)

/-- The watched-literal normalisation of `propagate`'s inner loop:
`if (c[0] == false_lit) c[0] = c[1], c[1] = false_lit` applied to the
clause `cr` (with `false_lit = ¬p`). -/
def pwSwap (p : Nat) (st : Solver) (cr : Nat) : Clause :=
  let c0 := st.ca.getD cr default
  if c0.lits.getD 0 0 = litNeg p then
    { c0 with lits := (c0.lits.set 0 (c0.lits.getD 1 0)).set 1 (litNeg p) }
  else c0

/-- The state after writing the normalised clause back into the arena. -/
def pwSt1 (p : Nat) (st : Solver) (cr : Nat) : Solver :=
  { st with ca := st.ca.set cr (pwSwap p st cr) }

/-- The first watched literal of the normalised clause (`Lit first = c[0]`). -/
def pwFirst (p : Nat) (st : Solver) (cr : Nat) : Nat :=
  (pwSwap p st cr).lits.getD 0 0

/-- The clause after promoting the replacement literal found at index `k`
into the second watch slot (`c[1] = c[k]; c[k] = false_lit`). -/
def pwC2 (p : Nat) (st : Solver) (cr k : Nat) : Clause :=
  let c1 := pwSwap p st cr
  { c1 with lits := (c1.lits.set 1 (c1.lits.getD k 0)).set k (litNeg p) }

/-- The state after the watch move: the promoted clause is stored and a
watcher is pushed onto the watch list of the new second watch's negation
(`watches[~c[1]].push(w)`). -/
def pwSt3 (p : Nat) (st : Solver) (cr k : Nat) : Solver :=
  occPush (litNeg ((pwC2 p st cr k).lits.getD 1 0)) ⟨cr, pwFirst p st cr⟩
    { pwSt1 p st cr with ca := (pwSt1 p st cr).ca.set cr (pwC2 p st cr k) }

/-- The body of `propagate`'s inner loop: traverse the watcher list of the
enqueued literal `p`, keeping watchers in `acc` (the `*j++` compaction),
moving watches, enqueuing implied literals, and stopping with the
conflicting clause when a clause with no replacement watch has a false
first literal — in which case the remaining unprocessed watchers are copied
over (`while (i < end) *j++ = *i++`).  Returns the updated state, the new
watcher list for `p`, and the conflict, if any. -/
def propWatch (p : Nat) : Solver → List Watcher → List Watcher →
    Solver × List Watcher × Option Nat
  | st, [], acc => (st, acc, none)
  | st, w :: rest, acc =>
    if st.valueLit w.blocker = .ltrue then
      propWatch p st rest (acc ++ [w])
    else
      if pwFirst p st w.cref ≠ w.blocker ∧
          (pwSt1 p st w.cref).valueLit (pwFirst p st w.cref) = .ltrue then
        propWatch p (pwSt1 p st w.cref) rest (acc ++ [⟨w.cref, pwFirst p st w.cref⟩])
      else
        match findNonFalse (pwSt1 p st w.cref) ((pwSwap p st w.cref).lits.drop 2) 2 with
        | some k => propWatch p (pwSt3 p st w.cref k) rest acc
        | none =>
          if (pwSt1 p st w.cref).valueLit (pwFirst p st w.cref) = .lfalse then
            ({ pwSt1 p st w.cref with qhead := (pwSt1 p st w.cref).trail.length },
              (acc ++ [⟨w.cref, pwFirst p st w.cref⟩]) ++ rest, some w.cref)
          else
            propWatch p (uncheckedEnqueue (pwFirst p st w.cref) (some w.cref) (pwSt1 p st w.cref))
              rest (acc ++ [⟨w.cref, pwFirst p st w.cref⟩])

/-- The outer loop of `propagate`: process trail literals from `qhead`
until the queue is drained or a conflict is returned; counts processed
literals in `nprops`.  Fuel-indexed; `none` means the fuel ran out. -/
def propagateLoop : Nat → Solver → Nat → Option (Option Nat × Solver × Nat)
  | 0, st, n =>
    if st.qhead < st.trail.length then none else some (none, st, n)
  | fuel + 1, st, n =>
    if st.qhead < st.trail.length then
      let p := st.trail.getD st.qhead 0
      let (ws, st1) := watchesLookup p st
      let st2 := { st1 with qhead := st1.qhead + 1 }
      let (st3, kept, confl) := propWatch p st2 ws []
      let st4 := { st3 with watchesOcc := listInsert st3.watchesOcc p kept [] }
      match confl with
      | some cr => some (some cr, st4, n + 1)
      | none => propagateLoop fuel st4 (n + 1)
    else some (none, st, n)

/-- `propagate()`: drain the propagation queue, returning the conflicting
clause if one arises (`CRef_Undef` = `none`), and update the propagation
statistics.  The fuel bound suffices for every state reachable by the
solver (each processed literal advances `qhead`, and the trail can grow at
most once per variable). -/
def propagate (st : Solver) : Option (Option Nat × Solver) :=
  match propagateLoop (st.assigns.length + st.trail.length + 1) st 0 with
  | none => none
  | some (confl, st1, n) =>
    some (confl,
      { st1 with propagations := st1.propagations + n
                 simpDB_props := st1.simpDB_props - n })

/-- The literal-filtering scan of `addClause_`: with `prev` the last kept
literal (`p`, initially `lit_Undef`), return `none` when the clause is
found satisfied or tautological (the source returns `true` immediately),
otherwise the kept literals (true-valued ⇒ satisfied; false-valued and
duplicate literals dropped). -/
def addClauseScan (st : Solver) : List Nat → Option Nat → Option (List Nat)
  | [], _ => some []
  | l :: ls, prev =>
    if st.valueLit l = .ltrue ∨ prev.any (fun q => decide (l = litNeg q)) then
      none
    else if st.valueLit l ≠ .lfalse ∧ prev.all (fun q => decide (l ≠ q)) then
      match addClauseScan st ls (some l) with
      | none => none
      | some ks => some (l :: ks)
    else addClauseScan st ls prev

/-- `addClause_(ps)`: sort the clause, drop duplicate and false literals,
return `true` without storing anything if the clause is satisfied or
tautological; record global unsatisfiability (`ok = false`) on the empty
clause; enqueue and propagate a unit clause; otherwise allocate and attach
the clause.  `none` only on fuel exhaustion inside `propagate`. -/
def addClause_ (ps0 : List Nat) (st0 : Solver) : Option (Bool × Solver) :=
  let st := { st0 with addClause_SingleLitReturned := false }
  if st.ok = false then some (false, st)
  else
    let ps := sortLits ps0
    match addClauseScan st ps none with
    | none => some (true, st)
    | some kept =>
      if kept.length = 0 then some (false, { st with ok := false })
      else if kept.length = 1 then
        let st1 := uncheckedEnqueue (kept.getD 0 0) none st
        let st2 := { st1 with addClause_SingleLitReturned := true
                              addClause_SingleLit := kept.getD 0 0 }
        match propagate st2 with
        | none => none
        | some (confl, st3) =>
          some (confl = none, { st3 with ok := confl = none })
      else
        let cr := st.ca.length
        let st1 := { st with ca := st.ca ++ [⟨kept, false, 0, 0, none⟩]
                             clauses := st.clauses ++ [cr] }
        some (true, attachClause cr st1)

/-- One iteration of the backtracking loop of `cancelUntil`: undo the
assignment of the trail literal at position `c`, save its phase according
to the phase-saving mode (`lastLim` is `trail_lim.last()`), set its
`first_polarity` flag, and re-insert it into the variable order. -/
def undoOne (c : Nat) (lastLim : Nat) (st : Solver) : Solver :=
  let p := st.trail.getD c 0
  let x := litVar p
  let st1 := { st with assigns := st.assigns.set x .lundef }
  let st2 :=
    if st1.phase_saving > 1 ∨ (st1.phase_saving = 1 ∧ c > lastLim) then
      { st1 with polarity := listInsert st1.polarity x (litSign p) false }
    else st1
  let st3 := { st2 with first_polarity := listInsert st2.first_polarity x true false }
  insertVarOrder x st3

/-- The backtracking loop, undoing trail positions `lim + k - 1`, …, `lim`
(the source iterates `c` from `trail.size()-1` down to `trail_lim[level]`). -/
def cancelLoop (lastLim lim : Nat) : Nat → Solver → Solver
  | 0, st => st
  | k + 1, st => cancelLoop lastLim lim k (undoOne (lim + k) lastLim st)

/-- `cancelUntil(level)`: revert to the state at the given decision level,
unassigning every trail literal beyond it (with phase saving), resetting
`qhead`, and shrinking the trail and the trail-limit stack. -/
def cancelUntil (lvl : Nat) (st : Solver) : Solver :=
  if st.decisionLevel > lvl then
    let lim := st.trail_lim.getD lvl 0
    let lastLim := st.trail_lim.getD (st.trail_lim.length - 1) 0
    let st1 := cancelLoop lastLim lim (st.trail.length - lim) st
    { st1 with qhead := lim
               trail := st1.trail.take lim
               trail_lim := st1.trail_lim.take lvl }
  else st

/-- Find the element with strictly greatest activity (first among ties). -/
def removeMinAux (st : Solver) : List Nat → Nat → Nat
  | [], best => best
  | v :: vs, best =>
    if st.activity.getD v 0 > st.activity.getD best 0 then removeMinAux st vs v
    else removeMinAux st vs best

/-- Modelled from the spec: `order_heap.removeMin()` removes and returns
the variable of highest activity (the priority structure is ordered by
activity descending via `VarOrderLt`). -/
def heapRemoveMin (st : Solver) : Option (Nat × Solver) :=
  match st.order_heap with
  | [] => none
  | v :: vs =>
    let best := removeMinAux st vs v
    some (best, { st with order_heap := st.order_heap.erase best })

/-- The activity-based decision loop of `pickBranchLit`: pop the heap until
an unassigned decision variable appears or the heap is exhausted. -/
def pickLoop : Nat → Solver → Option Nat → Option Nat × Solver
  | 0, st, next => (next, st)
  | fuel + 1, st, next =>
    if next.any (fun v =>
        decide (st.valueVar v = .lundef) && st.decision.getD v false) then
      (next, st)
    else
      match heapRemoveMin st with
      | none => (none, st)
      | some (v, st1) => pickLoop fuel st1 (some v)

/-- The variable-selection prefix of `pickBranchLit()`: the random-decision
attempt (consuming one random draw for the frequency test and, when it
fires, one for the index) followed by the activity-based loop. -/
def pickNext (st : Solver) : Option Nat × Solver :=
  let (r, st1) := st.drand
  let (next0, st2) :=
    if r < st.random_var_freq ∧ st1.order_heap ≠ [] then
      let (i, sta) := st1.irand st1.order_heap.length
      let nv := sta.order_heap.getD i 0
      let stb :=
        if sta.valueVar nv = .lundef ∧ sta.decision.getD nv false then
          { sta with rnd_decisions := sta.rnd_decisions + 1 }
        else sta
      (some nv, stb)
    else (none, st1)
  pickLoop (st2.order_heap.length + 1) st2 next0

/-- `pickBranchLit()`: choose the next branching literal — possibly a
random variable, then the highest-activity unassigned decision variable;
polarity from the user-forced polarity, else random polarity, else the
saved/default phase with the `first_polarity` and `nVars()/3` index rule. -/
def pickBranchLit (st : Solver) : Option Nat × Solver :=
  let in_vars := st.nVars / 3
  match pickNext st with
  | (none, st3) => (none, st3)
  | (some nv, st3) =>
    if st3.user_pol.getD nv .lundef ≠ .lundef then
      (some (mkLit nv (decide (st3.user_pol.getD nv .lundef = .ltrue))), st3)
    else if st3.rnd_pol then
      let (r2, st4) := st3.drand
      (some (mkLit nv (decide (r2 < (1 / 2 : Rat)))), st4)
    else
      if st3.first_polarity.getD nv false = false then
        if nv < in_vars then
          (some (mkLit nv (st3.polarity.getD nv false)), st3)
        else
          (some (mkLit nv true),
            { st3 with polarity := listInsert st3.polarity nv true false })
      else
        (some (mkLit nv (st3.polarity.getD nv false)), st3)

/-- The polarity-priority ladder in the order the specification states it:
a user-forced polarity first; else, with the random-polarity flag set, a
uniformly random polarity (the next random draw against 1/2); else the
saved phase of a variable that was previously assigned and backtracked
(`first_polarity` set); else the stored default polarity for an index
below `nVars()/3` and `true` at or above it. -/
def pickPolarityClaim (in_vars : Nat) (st : Solver) (nv : Nat) : Bool :=
  if st.user_pol.getD nv .lundef ≠ .lundef then
    decide (st.user_pol.getD nv .lundef = .ltrue)
  else if st.rnd_pol then
    decide (st.drand.1 < (1 / 2 : Rat))
  else if st.first_polarity.getD nv false then
    st.polarity.getD nv false
  else if nv < in_vars then
    st.polarity.getD nv false
  else
    true

/-- `rebuildOrderHeap()`: rebuild the priority structure from exactly the
unassigned decision variables. -/
def rebuildOrderHeap (st : Solver) : Solver :=
  { st with order_heap :=
      (List.range st.nVars).filter (fun v =>
        st.decision.getD v false && decide (st.valueVar v = .lundef)) }

/-- `1e100`, the variable-activity rescale threshold (written as the
numeral `10^100`). -/
def rescaleLimVar : Rat :=
  (10000000000000000000000000000000000000000000000000000000000000000000000000000000000000000000000000000 : Rat)

/-- `1e20`, the clause-activity rescale threshold (written as the numeral
`10^20`). -/
def rescaleLimCla : Rat := (100000000000000000000 : Rat)

/-- Modelled from the spec: `varBumpActivity(v)` adds the primary increment
`var_inc` to the activity of `v`, rescaling all activities and the
increment by `1e-100` on overflow of the bounded magnitude. -/
def varBumpActivity (v : Nat) (st : Solver) : Solver :=
  let a := st.activity.getD v 0 + st.var_inc
  let st1 := { st with activity := listInsert st.activity v a 0 }
  if a > rescaleLimVar then
    { st1 with activity := st1.activity.map (fun x => x / rescaleLimVar)
               var_inc := st1.var_inc / rescaleLimVar }
  else st1

/-- Modelled from the spec: `varBumpActivity_New1(v)` is the alternate,
separately-decaying activity channel — it bumps the same activity score by
the second increment `var_inc1` (rescaling `var_inc1` on overflow). -/
def varBumpActivityNew1 (v : Nat) (st : Solver) : Solver :=
  let a := st.activity.getD v 0 + st.var_inc1
  let st1 := { st with activity := listInsert st.activity v a 0 }
  if a > rescaleLimVar then
    { st1 with activity := st1.activity.map (fun x => x / rescaleLimVar)
               var_inc1 := st1.var_inc1 / rescaleLimVar }
  else st1

/-- Modelled from the spec: `varDecayActivity()` grows the primary
increment by the reciprocal of the decay factor. -/
def varDecayActivity (st : Solver) : Solver :=
  { st with var_inc := st.var_inc * (1 / st.var_decay) }

/-- Modelled from the spec: `varDecayActivity_New1()` grows the alternate
increment by the reciprocal of its own decay factor. -/
def varDecayActivityNew1 (st : Solver) : Solver :=
  { st with var_inc1 := st.var_inc1 * (1 / st.var_decay1) }

/-- Scale the activity of the clauses in `crs` by `1 / rescaleLimCla`. -/
def scaleClauses (crs : List Nat) (ca : List Clause) : List Clause :=
  crs.foldl (fun ca cr =>
    let c := ca.getD cr default
    ca.set cr { c with act := c.act / rescaleLimCla }) ca

/-- Modelled from the spec: `claBumpActivity(c)` adds `cla_inc` to the
clause's activity, rescaling every learnt clause's activity and `cla_inc`
by `1e-20` on overflow. -/
def claBumpActivity (cr : Nat) (st : Solver) : Solver :=
  let c := st.ca.getD cr default
  let a := c.act + st.cla_inc
  let st1 := { st with ca := st.ca.set cr { c with act := a } }
  if a > rescaleLimCla then
    { st1 with ca := scaleClauses st1.learnts st1.ca
               cla_inc := st1.cla_inc / rescaleLimCla }
  else st1

/-- Modelled from the spec: `claDecayActivity()`. -/
def claDecayActivity (st : Solver) : Solver :=
  { st with cla_inc := st.cla_inc * (1 / st.clause_decay) }

/-- The inner `for` of `analyze`: process the literals of the current
reason/conflict clause, bumping the activity of each not-yet-seen variable
assigned above level 0 — through the alternate channel
(`varBumpActivity_New1`) exactly when the variable index is below
`nVars()/3` and its current value is true — marking it seen, and either
counting it on the current-level path (`pathC`) or collecting it into the
learned clause. -/
def analyzeClauseLits (dl : Nat) :
    Solver → List Nat → Nat → List Nat → Solver × Nat × List Nat
  | st, [], pathC, out => (st, pathC, out)
  | st, q :: qs, pathC, out =>
    let x := litVar q
    let in_vars := st.nVars / 3
    if st.seen.getD x 0 = 0 ∧ st.level x > 0 then
      let st1 :=
        if x < in_vars ∧ st.valueVar x = .ltrue then varBumpActivityNew1 x st
        else varBumpActivity x st
      let st2 := { st1 with seen := listInsert st1.seen x 1 0 }
      if st2.level x ≥ dl then analyzeClauseLits dl st2 qs (pathC + 1) out
      else analyzeClauseLits dl st2 qs pathC (out ++ [q])
    else analyzeClauseLits dl st qs pathC out

/-- The backward trail walk `while (!seen[var(trail[index--])]);` — the
position of the last trail literal (at or below `idx`) whose variable is
marked seen; `none` models falling off the trail (impossible in real
runs). -/
def findSeenIdx (st : Solver) : Nat → Option Nat
  | 0 =>
    if st.seen.getD (litVar (st.trail.getD 0 0)) 0 ≠ 0 then some 0 else none
  | i + 1 =>
    if st.seen.getD (litVar (st.trail.getD (i + 1) 0)) 0 ≠ 0 then some (i + 1)
    else findSeenIdx st i

/-- The first-UIP resolution loop of `analyze` (the `do … while (pathC > 0)`):
resolve the current clause, walk back to the last seen trail literal, follow
its reason, until a single current-level literal remains.  Returns the state,
the final literal `p` (whose negation is the asserting literal) and the
collected lower-level literals of the learned clause. -/
def analyzeLoop (dl : Nat) :
    Nat → Solver → Option Nat → Option Nat → Nat → List Nat → Nat →
    Option (Solver × Nat × List Nat)
  | 0, _, _, _, _, _, _ => none
  | fuel + 1, st, confl, p, index, out, pathC =>
    match confl with
    | none => none
    | some cr =>
      let st1 := if (st.ca.getD cr default).learnt then claBumpActivity cr st else st
      let lits := (st1.ca.getD cr default).lits
      let lits1 := match p with | none => lits | some _ => lits.drop 1
      let (st2, pathC2, out2) := analyzeClauseLits dl st1 lits1 pathC out
      match findSeenIdx st2 index with
      | none => none
      | some i =>
        let pNew := st2.trail.getD i 0
        let conflNew := st2.reason (litVar pNew)
        let st3 := { st2 with seen := listInsert st2.seen (litVar pNew) 0 0 }
        let pathC3 := pathC2 - 1
        if pathC3 > 0 then
          analyzeLoop dl fuel st3 conflNew (some pNew) (i - 1) out2 pathC3
        else some (st3, pNew, out2)

/-- The manual-stack loop of `litRedundant(p)` with the four-state `seen`
memoisation (0 = undef, 1 = source, 2 = removable, 3 = failed); threads the
`analyze_toclear` list.  Fuel-indexed. -/
def litRedundantLoop :
    Nat → Nat → Nat → List (Nat × Nat) → Solver → List Nat →
    Option (Bool × Solver × List Nat)
  | 0, _, _, _, _, _ => none
  | fuel + 1, i, p, stack, st, toclear =>
    match st.reason (litVar p) with
    | none => none
    | some cr =>
      let c := (st.ca.getD cr default).lits
      if i < c.length then
        let l := c.getD i 0
        if st.level (litVar l) = 0 ∨ st.seen.getD (litVar l) 0 = 1 ∨
            st.seen.getD (litVar l) 0 = 2 then
          litRedundantLoop fuel (i + 1) p stack st toclear
        else if st.reason (litVar l) = none ∨ st.seen.getD (litVar l) 0 = 3 then
          let stack2 := stack ++ [(0, p)]
          let (st2, toclear2) := stack2.foldl
            (fun (acc : Solver × List Nat) e =>
              if acc.1.seen.getD (litVar e.2) 0 = 0 then
                ({ acc.1 with seen := listInsert acc.1.seen (litVar e.2) 3 0 },
                  acc.2 ++ [e.2])
              else acc)
            (st, toclear)
          some (false, st2, toclear2)
        else
          litRedundantLoop fuel 1 l (stack ++ [(i, p)]) st toclear
      else
        let (st1, toclear1) :=
          if st.seen.getD (litVar p) 0 = 0 then
            ({ st with seen := listInsert st.seen (litVar p) 2 0 }, toclear ++ [p])
          else (st, toclear)
        match stack.getLast? with
        | none => some (true, st1, toclear1)
        | some (si, sl) =>
          litRedundantLoop fuel (si + 1) sl stack.dropLast st1 toclear1

/-- `litRedundant(p)`: whether `p` is redundant in the learned clause
(implied by the other literals through reason clauses). -/
def litRedundant (fuel : Nat) (p : Nat) (st : Solver) (toclear : List Nat) :
    Option (Bool × Solver × List Nat) :=
  litRedundantLoop fuel 1 p [] st toclear

/-- Deep conflict-clause minimisation (`ccmin_mode == 2`): keep the
literals without a reason or not redundant. -/
def ccminDeep (fuel : Nat) :
    Solver → List Nat → List Nat → List Nat →
    Option (Solver × List Nat × List Nat)
  | st, [], kept, tc => some (st, kept, tc)
  | st, l :: ls, kept, tc =>
    if st.reason (litVar l) = none then ccminDeep fuel st ls (kept ++ [l]) tc
    else
      match litRedundant fuel l st tc with
      | none => none
      | some (red, st2, tc2) =>
        if red then ccminDeep fuel st2 ls kept tc2
        else ccminDeep fuel st2 ls (kept ++ [l]) tc2

/-- Basic conflict-clause minimisation (`ccmin_mode == 1`): keep a literal
if it has no reason or its reason clause contains an unseen literal above
level 0. -/
def ccminBasic (st : Solver) : List Nat → List Nat
  | [] => []
  | l :: ls =>
    match st.reason (litVar l) with
    | none => l :: ccminBasic st ls
    | some cr =>
      if ((st.ca.getD cr default).lits.drop 1).any (fun q =>
          decide (st.seen.getD (litVar q) 0 = 0) &&
          decide (st.level (litVar q) > 0)) then
        l :: ccminBasic st ls
      else ccminBasic st ls

/-- The scan for the literal of greatest decision level among
`out_learnt[2..]` (`max_i` starts at 1; strict comparison keeps the first
maximum). -/
def argmaxLevel (st : Solver) : List Nat → Nat → Nat → Nat → Nat
  | [], _, maxI, _ => maxI
  | q :: qs, i, maxI, maxLvl =>
    if st.level (litVar q) > maxLvl then argmaxLevel st qs (i + 1) i (st.level (litVar q))
    else argmaxLevel st qs (i + 1) maxI maxLvl

/-- The backtrack-level computation of `analyze`: 0 for a unit learned
clause, otherwise the greatest level among the non-asserting literals,
whose literal is swapped into position 1. -/
def analyzeBtLevel (st : Solver) (learnt : List Nat) : List Nat × Nat :=
  if learnt.length = 1 then (learnt, 0)
  else
    let maxI := argmaxLevel st (learnt.drop 2) 2 1
      (st.level (litVar (learnt.getD 1 0)))
    let p := learnt.getD maxI 0
    let learnt2 := (learnt.set maxI (learnt.getD 1 0)).set 1 p
    (learnt2, st.level (litVar p))

/-- Reset the `seen` marks of the variables recorded in `analyze_toclear`. -/
def clearSeen (toclear : List Nat) (st : Solver) : Solver :=
  toclear.foldl (fun s l => { s with seen := listInsert s.seen (litVar l) 0 0 }) st

/-- `analyze(confl, out_learnt, out_btlevel)`: produce the first-UIP learned
clause (asserting literal first) and the backtrack level; bumps activities,
minimises the clause according to `ccmin_mode`, updates the literal
statistics and clears the `seen` marks. -/
def analyze (fuel : Nat) (confl : Nat) (st : Solver) :
    Option (List Nat × Nat × Solver) :=
  let dl := st.decisionLevel
  match analyzeLoop dl fuel st (some confl) none (st.trail.length - 1) [] 0 with
  | none => none
  | some (st1, p, out) =>
    let learnt0 := litNeg p :: out
    let toclear := learnt0
    let minRes : Option (Solver × List Nat × List Nat) :=
      if st1.ccmin_mode = 2 then
        match ccminDeep fuel st1 out [] toclear with
        | none => none
        | some (st2, keptTail, tc2) => some (st2, litNeg p :: keptTail, tc2)
      else if st1.ccmin_mode = 1 then
        some (st1, litNeg p :: ccminBasic st1 out, toclear)
      else some (st1, learnt0, toclear)
    match minRes with
    | none => none
    | some (st2, learnt1, tc2) =>
      let st3 := { st2 with max_literals := st2.max_literals + learnt0.length
                            tot_literals := st2.tot_literals + learnt1.length }
      let lb := analyzeBtLevel st3 learnt1
      some (lb.1, lb.2, clearSeen tc2 st3)

/-- One step of `analyzeFinal`'s backward trail scan at position `i`. -/
def analyzeFinalStep (i : Nat) (st : Solver) : Solver :=
  let x := litVar (st.trail.getD i 0)
  if st.seen.getD x 0 ≠ 0 then
    let st1 :=
      match st.reason x with
      | none =>
        if litNeg (st.trail.getD i 0) ∈ st.conflict then st
        else { st with conflict := st.conflict ++ [litNeg (st.trail.getD i 0)] }
      | some cr =>
        ((st.ca.getD cr default).lits.drop 1).foldl
          (fun s q =>
            if s.level (litVar q) > 0 then
              { s with seen := listInsert s.seen (litVar q) 1 0 }
            else s) st
    { st1 with seen := listInsert st1.seen x 0 0 }
  else st

/-- The descending loop of `analyzeFinal` over trail positions
`trail.size()-1 … trail_lim[0]`. -/
def analyzeFinalLoop (lim : Nat) : Nat → Solver → Solver
  | 0, st => st
  | k + 1, st => analyzeFinalLoop lim k (analyzeFinalStep (lim + k) st)

/-- `analyzeFinal(p, out_conflict)`: express the final conflict in terms of
the assumptions, collecting into `conflict` the assumption literals that
led to the assignment falsifying `p`. -/
def analyzeFinal (p : Nat) (st : Solver) : Solver :=
  let st1 := { st with conflict := [p] }
  if st1.decisionLevel = 0 then st1
  else
    let st2 := { st1 with seen := listInsert st1.seen (litVar p) 1 0 }
    let lim := st2.trail_lim.getD 0 0
    let st3 := analyzeFinalLoop lim (st2.trail.length - lim) st2
    { st3 with seen := listInsert st3.seen (litVar p) 0 0 }

/-- The arena footprint of a clause in 32-bit units (header, literals, and
the extra activity field of learnt clauses), as accounted by the region
allocator. -/
def clauseUnits (c : Clause) : Nat :=
  1 + c.lits.length + (if c.learnt then 1 else 0)

/-- `ca.size()`: total allocated arena units (freed clauses included until
garbage collection). -/
def caSize (st : Solver) : Nat := st.ca.foldl (fun a c => a + clauseUnits c) 0

/-- Modelled from the spec: `locked(c)` — the clause is the reason of the
current (true) assignment of its first literal, hence must not be
removed. -/
def locked (cr : Nat) (st : Solver) : Bool :=
  let c := st.ca.getD cr default
  decide (st.valueLit (c.lits.getD 0 0) = .ltrue) &&
    decide (st.reason (litVar (c.lits.getD 0 0)) = some cr)

/-- `detachClause(cr, strict)`: remove the clause's two watchers — eagerly
in strict mode, by dirty-flagging in lazy mode — and update the clause
statistics. -/
def detachClause (cr : Nat) (strict : Bool) (st : Solver) : Solver :=
  let c := st.ca.getD cr default
  let l0 := c.lits.getD 0 0
  let l1 := c.lits.getD 1 0
  let st1 :=
    if strict then
      let ws0 := (st.watchesOcc.getD (litNeg l0) []).erase ⟨cr, l1⟩
      let st1a := { st with watchesOcc := listInsert st.watchesOcc (litNeg l0) ws0 [] }
      let ws1 := (st1a.watchesOcc.getD (litNeg l1) []).erase ⟨cr, l0⟩
      { st1a with watchesOcc := listInsert st1a.watchesOcc (litNeg l1) ws1 [] }
    else occSmudge (litNeg l1) (occSmudge (litNeg l0) st)
  if c.learnt then
    { st1 with num_learnts := st1.num_learnts - 1
               learnts_literals := st1.learnts_literals - c.size }
  else
    { st1 with num_clauses := st1.num_clauses - 1
               clauses_literals := st1.clauses_literals - c.size }

/-- `removeClause(cr)`: detach the clause, clear a reason pointing at it,
mark it deleted and account the freed arena space. -/
def removeClause (cr : Nat) (st : Solver) : Solver :=
  let st1 := detachClause cr false st
  let c := st1.ca.getD cr default
  let st2 :=
    if locked cr st1 then
      let x := litVar (c.lits.getD 0 0)
      let vd := st1.vardata.getD x (mkVarData none 0)
      let vdl := listInsert st1.vardata x (mkVarData none vd.level) (mkVarData none 0)
      { st1 with vardata := vdl }
    else st1
  { st2 with ca := st2.ca.set cr { c with mark := 1 }
             wasted := st2.wasted + clauseUnits c }

/-- `satisfied(c)`: some literal of the clause is currently true. -/
def satisfied (st : Solver) (c : Clause) : Bool :=
  c.lits.any (fun l => decide (st.valueLit l = .ltrue))

/-- `OccLists::cleanAll()`: purge watchers of deleted clauses from every
dirty watch list and clear the dirty flags. -/
def cleanAll (st : Solver) : Solver :=
  { st with
    watchesOcc := (List.range st.watchesOcc.length).map (fun p =>
      if st.watchesDirty.getD p false then
        (st.watchesOcc.getD p []).filter
          (fun w => (st.ca.getD w.cref default).mark ≠ 1)
      else st.watchesOcc.getD p [])
    watchesDirty := st.watchesDirty.map (fun _ => false) }

/-- `ca.reloc(cr, to)`: forward the reference if the clause was already
moved, otherwise copy it into the new arena and leave a forwarding mark.
Returns the new reference and both arenas. -/
def relocOne (cr : Nat) (caOld caNew : List Clause) :
    Nat × List Clause × List Clause :=
  let c := caOld.getD cr default
  match c.relocedTo with
  | some r => (r, caOld, caNew)
  | none =>
    let ncr := caNew.length
    (ncr, caOld.set cr { c with relocedTo := some ncr },
      caNew ++ [{ c with relocedTo := none }])

/-- `isRemoved(cr)`: the clause is marked deleted. -/
def isRemoved (cr : Nat) (st : Solver) : Bool :=
  decide ((st.ca.getD cr default).mark = 1)

/-- Invariant of the relocation pass, relative to the arena `origCa` the
pass started from: the forwarded arena `caO` still holds the original
literals and marks, and every forwarding pointer targets a clause of the
fresh arena `caN` holding the original literals. -/
def arenaInv (origCa caO caN : List Clause) : Prop :=
  (∀ j, (caO.getD j default).lits = (origCa.getD j default).lits ∧
        (caO.getD j default).mark = (origCa.getD j default).mark) ∧
  (∀ j r, (caO.getD j default).relocedTo = some r →
      r < caN.length ∧ (caN.getD r default).lits = (origCa.getD j default).lits)

/-- The fresh arena only grows during relocation, keeping its prefix. -/
def caNExtends (caN caN2 : List Clause) : Prop :=
  caN.length ≤ caN2.length ∧
  ∀ r, r < caN.length → caN2.getD r default = caN.getD r default

/-- The inner loop of `relocAll`'s watcher phase: relocate the clause of
each watcher of one watch list. -/
def relocWs : List Watcher → List Clause → List Clause →
    List Watcher × List Clause × List Clause
  | [], caO, caN => ([], caO, caN)
  | w :: ws, caO, caN =>
    let (ncr, caO2, caN2) := relocOne w.cref caO caN
    let (rest, caO3, caN3) := relocWs ws caO2 caN2
    ({ w with cref := ncr } :: rest, caO3, caN3)

/-- The watcher phase of `relocAll`: relocate every clause referenced from
any watch list (`for v < nVars, s ∈ {0,1}: for w in watches[mkLit(v,s)]`). -/
def relocOccsPhase : List Nat → List (List Watcher) → List Clause →
    List Clause → List (List Watcher) × List Clause × List Clause
  | [], occ, caO, caN => (occ, caO, caN)
  | p :: ps, occ, caO, caN =>
    let (ws, caO2, caN2) := relocWs (occ.getD p []) caO caN
    relocOccsPhase ps (listInsert occ p ws []) caO2 caN2

/-- The `locked` check of `relocAll`'s trail phase, over the fixed
assignment and the evolving metadata and arena. -/
def trailLockedHere (assigns : List LBool) (vd : List VarData)
    (caO : List Clause) (cr : Nat) : Bool :=
  decide ((assigns.getD (litVar ((caO.getD cr default).lits.getD 0 0)) .lundef) =
    (if litSign ((caO.getD cr default).lits.getD 0 0) then LBool.lfalse
     else LBool.ltrue)) &&
  decide ((vd.getD (litVar ((caO.getD cr default).lits.getD 0 0))
    (mkVarData none 0)).reason = some cr)

/-- The trail phase of `relocAll`: retarget the reason of each trail
variable when its clause has been forwarded or is locked (the `locked`
check inlined over the fixed assignment and the evolving metadata). -/
def relocTrailPhase (assigns : List LBool) : List Nat → List VarData →
    List Clause → List Clause → List VarData × List Clause × List Clause
  | [], vd, caO, caN => (vd, caO, caN)
  | p :: ps, vd, caO, caN =>
    match (vd.getD (litVar p) (mkVarData none 0)).reason with
    | none => relocTrailPhase assigns ps vd caO caN
    | some cr =>
      if (caO.getD cr default).relocedTo ≠ none ∨
          trailLockedHere assigns vd caO cr then
        let (ncr, caO2, caN2) := relocOne cr caO caN
        relocTrailPhase assigns ps
          (listInsert vd (litVar p)
            (mkVarData (some ncr) (vd.getD (litVar p) (mkVarData none 0)).level)
            (mkVarData none 0))
          caO2 caN2
      else relocTrailPhase assigns ps vd caO caN

/-- The clause-list phases of `relocAll`: relocate the clauses of a
reference list, dropping the ones marked deleted. -/
def relocCrs : List Nat → List Clause → List Clause →
    List Nat × List Clause × List Clause
  | [], caO, caN => ([], caO, caN)
  | cr :: crs, caO, caN =>
    if (caO.getD cr default).mark = 1 then relocCrs crs caO caN
    else
      let (ncr, caO2, caN2) := relocOne cr caO caN
      let (rest, caO3, caN3) := relocCrs crs caO2 caN2
      (ncr :: rest, caO3, caN3)

/-- `relocAll(to)`: clean the watch lists, then relocate every clause
referenced from a watch list, a trail reason (when forwarded or locked), the
learnt list (skipping deleted ones) and the original clause list; finally
adopt the fresh arena (`to.moveTo(ca)`). -/
def relocAll (st0 : Solver) : Solver :=
  let st := cleanAll st0
  let (occ2, caO1, caN1) :=
    relocOccsPhase (List.range st.watchesOcc.length) st.watchesOcc st.ca []
  let (vd2, caO2, caN2) := relocTrailPhase st.assigns st.trail st.vardata caO1 caN1
  let (learnts2, caO3, caN3) := relocCrs st.learnts caO2 caN2
  let (clauses2, _, caN4) := relocCrs st.clauses caO3 caN3
  { st with ca := caN4
            watchesOcc := occ2
            vardata := vd2
            learnts := learnts2
            clauses := clauses2
            wasted := 0 }

/-- `garbageCollect()`: relocate all live clauses into a fresh arena. -/
def garbageCollect (st : Solver) : Solver := relocAll st

/-- Modelled from the spec: `checkGarbage()` collects when the wasted
fraction of the arena exceeds `garbage_frac`. -/
def checkGarbage (st : Solver) : Solver :=
  if (st.wasted : Rat) > (caSize st : Rat) * st.garbage_frac then
    garbageCollect st
  else st

/-- The comparator `reduceDB_lt` of the learnt-clause sort: `x` sorts
before `y` when `x` is non-binary and `y` is binary or has greater
activity (so short, high-activity clauses sort last). -/
def reduceDB_lt (ca : List Clause) (x y : Nat) : Bool :=
  decide ((ca.getD x default).size > 2) &&
    (decide ((ca.getD y default).size = 2) ||
      decide ((ca.getD x default).act < (ca.getD y default).act))

/-- Modelled from the spec: `sort(learnts, reduceDB_lt(ca))` of
`mtl/Sort.h` reorders the learnt-clause list according to the comparator
(the exact permutation produced by the source's quicksort is irrelevant to
the verified properties, which hold for any reordering). -/
def sortByLt (lt : Nat → Nat → Bool) (l : List Nat) : List Nat :=
  List.insertionSort (fun a b => lt a b) l

/-- The filtering loop of `reduceDB`: remove the non-binary, non-locked
learnt clauses in the first half of the sorted order or below the activity
threshold `extra_lim`; keep the rest. -/
def reduceDBLoop (extra_lim : Rat) (len : Nat) :
    List Nat → Nat → List Nat → Solver → List Nat × Solver
  | [], _, kept, st => (kept, st)
  | cr :: rest, i, kept, st =>
    let c := st.ca.getD cr default
    if c.size > 2 ∧ locked cr st = false ∧ (i < len / 2 ∨ c.act < extra_lim) then
      reduceDBLoop extra_lim len rest (i + 1) kept (removeClause cr st)
    else reduceDBLoop extra_lim len rest (i + 1) (kept ++ [cr]) st

/-- `reduceDB()`: sort the learnt clauses with `reduceDB_lt`, delete half
of them — never binary or locked ones — and trigger garbage collection if
needed. -/
def reduceDB (st : Solver) : Solver :=
  let extra_lim := st.cla_inc / (st.learnts.length : Rat)
  let sorted := sortByLt (reduceDB_lt st.ca) st.learnts
  let (kept, st1) :=
    reduceDBLoop extra_lim sorted.length sorted 0 [] { st with learnts := sorted }
  checkGarbage { st1 with learnts := kept }

/-- The in-place trimming loop of `removeSatisfied`: from index 2 on,
replace a false literal by the last one and shrink
(`c[k--] = c[c.size()-1]; c.pop()`). -/
def trimLits (st : Solver) : Nat → List Nat → Nat → List Nat
  | 0, lits, _ => lits
  | fuel + 1, lits, k =>
    if k < lits.length then
      if st.valueLit (lits.getD k 0) = .lfalse then
        trimLits st fuel ((lits.set k (lits.getD (lits.length - 1) 0)).dropLast) k
      else trimLits st fuel lits (k + 1)
    else lits

/-- `removeSatisfied(cs)`: delete the satisfied clauses of the list and trim
false literals (beyond the two watched positions) from the others. -/
def removeSatisfiedLoop : List Nat → List Nat → Solver → List Nat × Solver
  | [], kept, st => (kept, st)
  | cr :: rest, kept, st =>
    let c := st.ca.getD cr default
    if satisfied st c then removeSatisfiedLoop rest kept (removeClause cr st)
    else
      let newLits := trimLits st c.lits.length c.lits 2
      let st1 := { st with ca := st.ca.set cr { c with lits := newLits } }
      removeSatisfiedLoop rest (kept ++ [cr]) st1

/-- `simplify()`: at decision level 0, fail permanently if propagation
conflicts; otherwise, when top-level assignments changed and the budget
allows, remove satisfied learnt clauses, collect garbage if needed and
rebuild the order heap. -/
def simplify (st : Solver) : Option (Bool × Solver) :=
  if st.ok = false then some (false, st)
  else
    match st.propagate with
    | none => none
    | some (some _, st1) => some (false, { st1 with ok := false })
    | some (none, st1) =>
      if (st1.nAssigns : Int) = st1.simpDB_assigns ∨ st1.simpDB_props > 0 then
        some (true, st1)
      else
        let (keptL, st2) := removeSatisfiedLoop st1.learnts [] st1
        let st3 := { st2 with learnts := keptL }
        let st4 := rebuildOrderHeap (checkGarbage st3)
        some (true,
          { st4 with
            simpDB_assigns := (st4.nAssigns : Int)
            simpDB_props := ((st4.clauses_literals + st4.learnts_literals : Nat) : Int) })

/-- Truncation of a rational toward zero, the semantics of C++'s
`double`-to-`int` cast. -/
def ratTrunc (q : Rat) : Int := Int.tdiv q.num (q.den : Int)

/-- Modelled from the spec: `withinBudget()` — no asynchronous interrupt
and the conflict and propagation counters below their budgets (negative
budget = unlimited). -/
def withinBudget (st : Solver) : Bool :=
  !st.asynch_interrupt &&
    (decide (st.conflict_budget < 0) ||
      decide ((st.conflicts : Int) < st.conflict_budget)) &&
    (decide (st.propagation_budget < 0) ||
      decide ((st.propagations : Int) < st.propagation_budget))

/-- The first loop of `luby`: find the size and sequence number of the
finite Luby subsequence containing index `x`
(`for (size = 1, seq = 0; size < x+1; seq++, size = 2*size+1)`). -/
def lubyGrow : Nat → Nat → Nat → Nat → Nat × Nat
  | 0, size, seq, _ => (size, seq)
  | fuel + 1, size, seq, x =>
    if size < x + 1 then lubyGrow fuel (2 * size + 1) (seq + 1) x
    else (size, seq)

/-- The second loop of `luby`
(`while (size-1 != x){ size = (size-1)>>1; seq--; x = x % size; }`). -/
def lubyShrink : Nat → Nat → Nat → Nat → Nat
  | 0, _, seq, _ => seq
  | fuel + 1, size, seq, x =>
    if size - 1 ≠ x then lubyShrink fuel ((size - 1) / 2) (seq - 1) (x % ((size - 1) / 2))
    else seq

/-- `luby(y, x)`: the `x`-th element of the Luby restart sequence scaled as
`y ^ seq`. -/
def luby (y : Rat) (x : Nat) : Rat :=
  let (size, seq) := lubyGrow (x + 2) 1 0 x
  let seq2 := lubyShrink (size + 2) size seq x
  y ^ seq2

/-- The assumption-processing loop of `search`: skip already-true
assumptions by opening dummy decision levels, return a final conflict via
`analyzeFinal` on a false assumption (`Sum.inl`), or yield the next
assumption to decide (`Sum.inr`). -/
def assumpLoop : Nat → Solver → Sum Solver (Option Nat × Solver)
  | 0, st => Sum.inr (none, st)
  | fuel + 1, st =>
    if st.decisionLevel < st.assumptions.length then
      let p := st.assumptions.getD st.decisionLevel 0
      if st.valueLit p = .ltrue then assumpLoop fuel st.newDecisionLevel
      else if st.valueLit p = .lfalse then Sum.inl (analyzeFinal (litNeg p) st)
      else Sum.inr (some p, st)
    else Sum.inr (none, st)

/-- Fuel bound used for the conflict-analysis loops inside `search`
(generous; analysis visits each trail literal and arena position a bounded
number of times on reachable states). -/
def analyzeFuelOf (st : Solver) : Nat :=
  (caSize st + st.trail.length + 2) * (caSize st + st.trail.length + 2)

/-- The body of `search(nof_conflicts)` as a fuel-indexed loop, carrying
the per-round conflict counter `conflictC`: propagate; on conflict at level
0 return Unsatisfiable, else analyze, backtrack, install the learned
clause and decay activities; on no conflict, restart when the round budget
is exhausted, simplify at the root, reduce the learnt database when over
cap, then process assumptions or decide.
The `learntsize_adjust` bookkeeping of the conflict branch is split out as
`searchAdjust`: count down, and on reaching zero grow the next adjustment
interval and the learnt-clause limit. -/
def searchAdjust (st6 : Solver) : Solver :=
  if st6.learntsize_adjust_cnt - 1 = 0 then
    let confl2 := st6.learntsize_adjust_confl * st6.learntsize_adjust_inc
    { st6 with learntsize_adjust_confl := confl2
               learntsize_adjust_cnt := ratTrunc confl2
               max_learnts := st6.max_learnts * st6.learntsize_inc }
  else { st6 with learntsize_adjust_cnt := st6.learntsize_adjust_cnt - 1 }

def searchLoop : Nat → Int → Nat → Solver → Option (LBool × Solver)
  | 0, _, _, _ => none
  | fuel + 1, nof, conflictC, st =>
    match st.propagate with
    | none => none
    | some (some confl, st1) =>
      -- CONFLICT
      let st2 := { st1 with conflicts := st1.conflicts + 1 }
      if st2.decisionLevel = 0 then some (.lfalse, st2)
      else
        match analyze (analyzeFuelOf st2) confl st2 with
        | none => none
        | some (learnt, btlevel, st3) =>
          let st4 := cancelUntil btlevel st3
          let st5 :=
            if learnt.length = 1 then uncheckedEnqueue (learnt.getD 0 0) none st4
            else
              let cr := st4.ca.length
              let st4a := { st4 with ca := st4.ca ++ [⟨learnt, true, 0, 0, none⟩]
                                     learnts := st4.learnts ++ [cr] }
              let st4b := claBumpActivity cr (attachClause cr st4a)
              uncheckedEnqueue (learnt.getD 0 0) (some cr) st4b
          searchLoop fuel nof (conflictC + 1)
            (searchAdjust
              (claDecayActivity (varDecayActivityNew1 (varDecayActivity st5))))
    | some (none, st1) =>
      -- NO CONFLICT
      if (0 ≤ nof ∧ (conflictC : Int) ≥ nof) ∨ withinBudget st1 = false then
        some (.lundef, cancelUntil 0 st1)
      else
        let simpRes : Option (Sum Solver Solver) :=
          if st1.decisionLevel = 0 then
            match st1.simplify with
            | none => none
            | some (false, s) => some (Sum.inl s)
            | some (true, s) => some (Sum.inr s)
          else some (Sum.inr st1)
        match simpRes with
        | none => none
        | some (Sum.inl s) => some (.lfalse, s)
        | some (Sum.inr st2) =>
          let st3 :=
            if ((st2.learnts.length : Int) - (st2.nAssigns : Int) : Rat) ≥
                st2.max_learnts then
              reduceDB st2
            else st2
          match assumpLoop (st3.assumptions.length + 1) st3 with
          | Sum.inl s => some (.lfalse, s)
          | Sum.inr (nextA, st4) =>
            let decideRes : Sum (LBool × Solver) (Nat × Solver) :=
              match nextA with
              | some p => Sum.inr (p, st4)
              | none =>
                let st5 := { st4 with decisions := st4.decisions + 1 }
                match st5.pickBranchLit with
                | (none, st6) => Sum.inl (.ltrue, st6)
                | (some p, st6) => Sum.inr (p, st6)
            match decideRes with
            | Sum.inl r => some r
            | Sum.inr (p, st6) =>
              searchLoop fuel nof conflictC (uncheckedEnqueue p none st6.newDecisionLevel)

/-- `search(nof_conflicts)`: bump the restart counter and run the loop. -/
def search (fuel : Nat) (nof : Int) (st : Solver) : Option (LBool × Solver) :=
  searchLoop fuel nof 0 { st with starts := st.starts + 1 }

/-- The restart loop of `solve_`: run `search` rounds with the Luby or
geometric conflict budgets until a verdict, stopping on budget
exhaustion. -/
def solveLoop : Nat → Nat → Solver → Option (LBool × Solver)
  | 0, _, _ => none
  | fuel + 1, currRestarts, st =>
    let rest_base :=
      if st.luby_restart then luby st.restart_inc currRestarts
      else st.restart_inc ^ currRestarts
    match search fuel (ratTrunc (rest_base * (st.restart_first : Rat))) st with
    | none => none
    | some (status, st1) =>
      if withinBudget st1 = false then some (status, st1)
      else if status = .lundef then solveLoop fuel (currRestarts + 1) st1
      else some (status, st1)

/-- `solve_()`: clear the model and final-conflict set; return
Unsatisfiable immediately in a contradictory state; otherwise initialise
the learnt-clause cap, run the restart loop, copy the model on success or
record permanent unsatisfiability, and backtrack to level 0. -/
def solve_ (fuel : Nat) (st0 : Solver) : Option (LBool × Solver) :=
  let st := { st0 with model := [], conflict := [] }
  if st.ok = false then some (.lfalse, st)
  else
    let st1 := { st with solves := st.solves + 1 }
    let ml := (st1.nClauses : Rat) * st1.learntsize_factor
    let ml2 := if ml < (st1.min_learnts_lim : Rat) then (st1.min_learnts_lim : Rat) else ml
    let st2 := { st1 with max_learnts := ml2
                          learntsize_adjust_confl := st1.learntsize_adjust_start_confl
                          learntsize_adjust_cnt := ratTrunc st1.learntsize_adjust_start_confl }
    match solveLoop fuel 0 st2 with
    | none => none
    | some (status, st3) =>
      let st4 :=
        if status = .ltrue then
          { st3 with model := (List.range st3.nVars).map (fun i => st3.valueVar i) }
        else if status = .lfalse ∧ st3.conflict.length = 0 then
          { st3 with ok := false }
        else st3
      some (status, cancelUntil 0 st4)

/-- `solve()`: empty assumptions, then `solve_`. -/
def solve (fuel : Nat) (st : Solver) : Option (LBool × Solver) :=
  solve_ fuel { st with assumptions := [] }

end Solver

/-- The freshly constructed solver (the member initialisers of
`Solver::Solver()` with the option defaults of `Solver.cc`), parametrised
by the stream of random draws; `var_decay1`, the decay constant of the
alternate activity channel (its definition lives outside the reviewed
sources), is modelled from the spec as a distinct constant. -/
def initSolver (rs : List Rat) : Solver :=
  { var_decay := (95 : Rat) / 100
    clause_decay := (999 : Rat) / 1000
    random_var_freq := 0
    luby_restart := true
    ccmin_mode := 2
    phase_saving := 2
    rnd_pol := false
    rnd_init_act := false
    garbage_frac := (20 : Rat) / 100
    min_learnts_lim := 0
    restart_first := 100
    restart_inc := 2
    default_upol := false
    var_decay1 := (1 : Rat) / 2
    learntsize_factor := (1 : Rat) / 3
    learntsize_inc := (11 : Rat) / 10
    learntsize_adjust_start_confl := 100
    learntsize_adjust_inc := (3 : Rat) / 2
    solves := 0, starts := 0, decisions := 0, rnd_decisions := 0
    propagations := 0, conflicts := 0, dec_vars := 0
    num_clauses := 0, num_learnts := 0
    clauses_literals := 0, learnts_literals := 0
    max_literals := 0, tot_literals := 0
    ca := [], wasted := 0
    clauses := [], learnts := []
    trail := [], trail_lim := [], assumptions := []
    assigns := [], polarity := [], first_polarity := [], user_pol := []
    decision := [], vardata := []
    watchesOcc := [], watchesDirty := []
    activity := [], seen := [], order_heap := []
    ok := true
    cla_inc := 1, var_inc := 1, var_inc1 := 1
    qhead := 0
    simpDB_assigns := -1, simpDB_props := 0
    next_var := 0, free_vars := [], released_vars := []
    model := [], conflict := []
    addClause_SingleLitReturned := false, addClause_SingleLit := 0
    max_learnts := 0
    learntsize_adjust_confl := 0, learntsize_adjust_cnt := 0
    conflict_budget := -1, propagation_budget := -1
    asynch_interrupt := false
    randStream := rs }

/-- A freshly constructed solver with two decision variables and no
clauses (used to instantiate theorems at concrete states). -/
def demo2 : Solver :=
  (((initSolver []).newVar .lundef true).2.newVar .lundef true).2

/-- An external call of the solving API: a clause addition or a solve
call (with its fuel). -/
inductive SolverOp where
  | addC : List Nat → SolverOp
  | solveC : Nat → SolverOp

/-- Run one API call, keeping the resulting state (the state is unchanged
on fuel exhaustion, which never occurs on the states considered here). -/
def runOp (o : SolverOp) (st : Solver) : Solver :=
  match o with
  | .addC ps =>
    match Solver.addClause_ ps st with
    | none => st
    | some r => r.2
  | .solveC f =>
    match Solver.solve_ f st with
    | none => st
    | some r => r.2

/-- Run a sequence of API calls. -/
def runOps (ops : List SolverOp) (st : Solver) : Solver :=
  ops.foldl (fun s o => runOp o s) st

/-- The state reached from the fresh two-variable solver by adding the
unit clause `{x0}`. -/
def demoAfterFirst : Solver :=
  match Solver.addClause_ [mkLit 0 false] demo2 with
  | none => demo2
  | some r => r.2

/-- The state reached by then adding the complementary unit clause
`{¬x0}` — the concrete contradiction scenario of the spec. -/
def demoContra : Solver :=
  match Solver.addClause_ [mkLit 0 true] demoAfterFirst with
  | none => demoAfterFirst
  | some r => r.2

/-- A two-variable state holding one binary learnt clause `(x0 ∨ x1)`
(used to instantiate the clause-database-reduction theorem). -/
def demoLearntState : Solver :=
  { demo2 with ca := [⟨[0, 2], true, 0, 0, none⟩]
               learnts := [0]
               num_learnts := 1
               learnts_literals := 2 }

/-- A state on which propagation must conflict: clauses `(x0 ∨ x1)` and
`(x0 ∨ ¬x1)` with `¬x0` enqueued but not yet propagated. -/
def demoConflState : Solver :=
  match Solver.addClause_ [mkLit 0 false, mkLit 1 false] demo2 with
  | none => demo2
  | some r =>
    match Solver.addClause_ [mkLit 0 false, mkLit 1 true] r.2 with
    | none => r.2
    | some r2 => Solver.uncheckedEnqueue (mkLit 0 true) none r2.2

/-- A state at decision level 1: the unit clause `{x0}` has been added
(assigning `x0` at level 0), a decision level was opened and the decision
`x1` enqueued — the input to a genuine backtracking call. -/
def demoBacktrackInput : Solver :=
  Solver.uncheckedEnqueue (mkLit 1 false) none (Solver.newDecisionLevel demoAfterFirst)

/-- Clauses `(x0 ∨ x1)` and `(x0 ∨ ¬x1)` with the decision `¬x0` enqueued
at level 1: propagation on it must conflict above the root level. -/
def demoConflLvl1 : Solver :=
  match Solver.addClause_ [mkLit 0 false, mkLit 1 false] demo2 with
  | none => demo2
  | some r =>
    match Solver.addClause_ [mkLit 0 false, mkLit 1 true] r.2 with
    | none => r.2
    | some r2 =>
      Solver.uncheckedEnqueue (mkLit 0 true) none
        (Solver.newDecisionLevel r2.2)

/-- The state in which `analyze` runs: `demoConflLvl1` after the
conflicting propagation (the conflict clause is clause 1). -/
def demoAnalyzeState : Solver :=
  match Solver.propagate demoConflLvl1 with
  | some (some _, s1) => s1
  | _ => demoConflLvl1

/-! ## Properties of the literal encoding -/

theorem mkLit_false_eq (v : Nat) : mkLit v false = 2 * v := by simp [mkLit]

theorem mkLit_true_eq (v : Nat) : mkLit v true = 2 * v + 1 := by simp [mkLit]

theorem litNeg_mkLit_false (v : Nat) : litNeg (mkLit v false) = mkLit v true := by
  rw [mkLit_false_eq, mkLit_true_eq]
  unfold litNeg
  have h : (2 * v) % 2 = 0 := by omega
  simp [h]

theorem litNeg_mkLit_true (v : Nat) : litNeg (mkLit v true) = mkLit v false := by
  rw [mkLit_false_eq, mkLit_true_eq]
  unfold litNeg
  have h : (2 * v + 1) % 2 = 1 := by omega
  simp [h]

theorem mkLit_litVar_litSign (l : Nat) : mkLit (litVar l) (litSign l) = l := by
  unfold mkLit litVar litSign
  by_cases h : l % 2 = 1
  · simp [h]
    omega
  · simp [h]
    omega

theorem valueLit_mkLit_false (st : Solver) (v : Nat) :
    st.valueLit (mkLit v false) = st.valueVar v := by
  rw [mkLit_false_eq]
  unfold Solver.valueLit litSign litVar
  have h1 : ¬((2 * v) % 2 = 1) := by omega
  have h2 : 2 * v / 2 = v := by omega
  simp [h1, h2]

theorem valueLit_mkLit_true (st : Solver) (v : Nat) :
    st.valueLit (mkLit v true) = (st.valueVar v).neg := by
  rw [mkLit_true_eq]
  unfold Solver.valueLit litSign litVar
  have h1 : (2 * v + 1) % 2 = 1 := by omega
  have h2 : (2 * v + 1) / 2 = v := by omega
  simp [h1, h2]

/-! ## C10: `addClause_` on satisfied or tautological clauses -/

theorem addClauseScan_eq_none_of_true (st : Solver) (lits : List Nat)
    (prev : Option Nat) (h : ∃ l ∈ lits, st.valueLit l = .ltrue) :
    Solver.addClauseScan st lits prev = none := by
  induction lits generalizing prev with
  | nil => simp at h
  | cons a t ih =>
    obtain ⟨l, hl, hv⟩ := h
    unfold Solver.addClauseScan
    rcases List.mem_cons.mp hl with rfl | hmem
    · rw [if_pos (Or.inl hv)]
    · split
      · rfl
      · split
        · rw [ih (some a) ⟨l, hmem, hv⟩]
        · exact ih prev ⟨l, hmem, hv⟩

theorem addClauseScan_taut_after (st : Solver) (v : Nat) (t : List Nat)
    (hs : t.Sorted (fun a b => a ≤ b)) (hlb : ∀ x ∈ t, mkLit v false ≤ x)
    (hmem : mkLit v true ∈ t) :
    Solver.addClauseScan st t (some (mkLit v false)) = none := by
  induction t with
  | nil => simp at hmem
  | cons a t ih =>
    have hub : a ≤ mkLit v true := by
      rcases List.mem_cons.mp hmem with rfl | hmem2
      · exact le_refl _
      · exact (List.sorted_cons.mp hs).1 _ hmem2
    have hlo : mkLit v false ≤ a := hlb a (List.mem_cons_self a t)
    have hcase : a = mkLit v false ∨ a = mkLit v true := by
      rw [mkLit_false_eq] at hlo ⊢
      rw [mkLit_true_eq] at hub ⊢
      omega
    unfold Solver.addClauseScan
    rcases hcase with rfl | rfl
    · -- a duplicate of the previously kept literal `mkLit v false`
      have hmem2 : mkLit v true ∈ t := by
        rcases List.mem_cons.mp hmem with heq | h2
        · exact absurd heq.symm (by rw [mkLit_false_eq, mkLit_true_eq]; omega)
        · exact h2
      split
      · rfl
      · split
        · rename_i h2
          simp at h2
        · exact ih (List.sorted_cons.mp hs).2
            (fun x hx => hlb x (List.mem_cons_of_mem _ hx)) hmem2
    · -- `a` is the complement `mkLit v true` of the previous literal
      have : (some (mkLit v false)).any (fun q => decide (mkLit v true = litNeg q)) = true := by
        simp [litNeg_mkLit_false]
      rw [if_pos (Or.inr this)]

theorem addClauseScan_taut (st : Solver) (v : Nat) (lits : List Nat)
    (hs : lits.Sorted (fun a b => a ≤ b))
    (h0 : mkLit v false ∈ lits) (h1 : mkLit v true ∈ lits) (prev : Option Nat) :
    Solver.addClauseScan st lits prev = none := by
  induction lits generalizing prev with
  | nil => simp at h0
  | cons a t ih =>
    have hne : mkLit v false ≠ mkLit v true := by
      rw [mkLit_false_eq, mkLit_true_eq]; omega
    have hna : a ≠ mkLit v true := by
      intro heq
      subst heq
      have h0t : mkLit v false ∈ t := by
        rcases List.mem_cons.mp h0 with heq | h2
        · exact absurd heq hne
        · exact h2
      have := (List.sorted_cons.mp hs).1 _ h0t
      rw [mkLit_false_eq, mkLit_true_eq] at this; omega
    have h1t : mkLit v true ∈ t := by
      rcases List.mem_cons.mp h1 with heq | h2
      · exact absurd heq.symm hna
      · exact h2
    by_cases hfa : a = mkLit v false
    · subst hfa
      unfold Solver.addClauseScan
      split
      · rfl
      · rename_i hnot1
        by_cases hvf : st.valueLit (mkLit v false) = .lfalse
        · -- the complement is then true: the scan aborts inside the tail
          have htrue : st.valueLit (mkLit v true) = .ltrue := by
            rw [valueLit_mkLit_true]
            rw [valueLit_mkLit_false] at hvf
            rw [hvf]; rfl
          split
          · rw [addClauseScan_eq_none_of_true st t (some (mkLit v false))
              ⟨_, h1t, htrue⟩]
          · exact addClauseScan_eq_none_of_true st t prev ⟨_, h1t, htrue⟩
        · -- the literal is kept (or is a duplicate of `prev`)
          split
          · rw [addClauseScan_taut_after st v t (List.sorted_cons.mp hs).2
              (fun x hx => (List.sorted_cons.mp hs).1 x hx) h1t]
          · rename_i h2
            -- not kept although not false: `prev` must already be `mkLit v false`
            have hprev : prev = some (mkLit v false) := by
              rcases prev with _ | q
              · exact absurd ⟨hvf, by simp⟩ h2
              · simp only [Option.all_some] at h2
                by_cases hq : mkLit v false = q
                · rw [hq]
                · exact absurd ⟨hvf, by simp [hq]⟩ h2
            rw [hprev]
            exact addClauseScan_taut_after st v t (List.sorted_cons.mp hs).2
              (fun x hx => (List.sorted_cons.mp hs).1 x hx) h1t
    · have h0t : mkLit v false ∈ t := by
        rcases List.mem_cons.mp h0 with heq | h2
        · exact absurd heq.symm hfa
        · exact h2
      unfold Solver.addClauseScan
      split
      · rfl
      · split
        · rw [ih (List.sorted_cons.mp hs).2 h0t h1t (some a)]
        · exact ih (List.sorted_cons.mp hs).2 h0t h1t prev

/-- C10: at decision level 0, `addClause_` with a clause containing a
literal already assigned true, or containing a literal together with its
complement, returns `true` and leaves the solver unchanged (beyond
resetting the single-literal report flag): no clause is stored, no watch
list is modified, nothing is enqueued. -/
theorem addClause_noop_of_sat_or_taut (st : Solver) (ps : List Nat)
    (hok : st.ok = true) (hdl : st.decisionLevel = 0)
    (h : (∃ l ∈ ps, st.valueLit l = .ltrue) ∨ ∃ l, l ∈ ps ∧ litNeg l ∈ ps) :
    Solver.addClause_ ps st =
      some (true, { st with addClause_SingleLitReturned := false }) := by
  have hscan :
      Solver.addClauseScan { st with addClause_SingleLitReturned := false }
        (sortLits ps) none = none := by
    have hperm := List.perm_insertionSort (fun a b => a ≤ b) ps
    rcases h with ⟨l, hl, hv⟩ | ⟨l, hl, hln⟩
    · exact addClauseScan_eq_none_of_true _ _ none
        ⟨l, (hperm.mem_iff).mpr hl, hv⟩
    · have hsorted : (sortLits ps).Sorted (fun a b => a ≤ b) :=
        List.sorted_insertionSort _ ps
      have hl2 : l ∈ sortLits ps := (hperm.mem_iff).mpr hl
      have hln2 : litNeg l ∈ sortLits ps := (hperm.mem_iff).mpr hln
      rcases Bool.eq_false_or_eq_true (litSign l) with hsgn | hsgn
      · have hform : l = mkLit (litVar l) true := by
          rw [← hsgn]; exact (mkLit_litVar_litSign l).symm
        have hform2 : litNeg l = mkLit (litVar l) false := by
          conv_lhs => rw [hform]
          rw [litNeg_mkLit_true]
        exact addClauseScan_taut _ (litVar l) _ hsorted
          (hform2 ▸ hln2) (hform ▸ hl2) none
      · have hform : l = mkLit (litVar l) false := by
          rw [← hsgn]; exact (mkLit_litVar_litSign l).symm
        have hform2 : litNeg l = mkLit (litVar l) true := by
          conv_lhs => rw [hform]
          rw [litNeg_mkLit_false]
        exact addClauseScan_taut _ (litVar l) _ hsorted
          (hform ▸ hl2) (hform2 ▸ hln2) none
  simp only [Solver.addClause_, hscan]
  simp [hok]

/-- Witness for C10 at a concrete state: the tautological clause
`x1 ∨ ¬x1` added to a fresh two-variable solver. -/
theorem addClause_noop_of_sat_or_taut_witness :
    Solver.addClause_ [mkLit 1 false, mkLit 1 true] demo2 =
      some (true, { demo2 with addClause_SingleLitReturned := false }) :=
  addClause_noop_of_sat_or_taut demo2 [mkLit 1 false, mkLit 1 true]
    (by rfl) (by rfl)
    (Or.inr ⟨mkLit 1 false, by simp, by rw [litNeg_mkLit_false]; simp⟩)

/-! ## C3: permanence of the contradictory (`ok = false`) state -/

theorem solve_of_not_ok (st : Solver) (fuel : Nat) (hok : st.ok = false) :
    Solver.solve_ fuel st =
      some (.lfalse, { st with model := [], conflict := [] }) := by
  simp [Solver.solve_, hok]

theorem addClause_of_not_ok (st : Solver) (ps : List Nat) (hok : st.ok = false) :
    Solver.addClause_ ps st =
      some (false, { st with addClause_SingleLitReturned := false }) := by
  simp [Solver.addClause_, hok]

theorem runOps_not_ok (ops : List SolverOp) (st : Solver) (hok : st.ok = false) :
    (runOps ops st).ok = false := by
  induction ops generalizing st with
  | nil => exact hok
  | cons o t ih =>
    have h1 : (runOp o st).ok = false := by
      cases o with
      | addC ps => simp [runOp, addClause_of_not_ok st ps hok, hok]
      | solveC f => simp [runOp, solve_of_not_ok st f hok, hok]
    show (runOps t (runOp o st)).ok = false
    exact ih _ h1

/-- C3: once `ok = false` is recorded the state is permanent — `solve_`
returns Unsatisfiable immediately, touching nothing but the cleared model
and final-conflict fields (so no search runs), `addClause_` returns
`false` without storing anything, `ok` stays false under any sequence of
further API calls; and the concrete formula `{(x0), (¬x0)}` is detected as
contradictory during the second clause addition, before `solve` is
invoked, after which `solve_` reports Unsatisfiable without searching. -/
theorem contradiction_state_permanent (st : Solver) (ps : List Nat)
    (fuel : Nat) (ops : List SolverOp) (hok : st.ok = false) :
    Solver.solve_ fuel st =
        some (.lfalse, { st with model := [], conflict := [] }) ∧
    Solver.addClause_ ps st =
        some (false, { st with addClause_SingleLitReturned := false }) ∧
    (runOps ops st).ok = false ∧
    (Solver.addClause_ [mkLit 0 false] demo2 = some (true, demoAfterFirst) ∧
      Solver.addClause_ [mkLit 0 true] demoAfterFirst = some (false, demoContra) ∧
      demoContra.ok = false ∧
      Solver.solve_ fuel demoContra =
        some (.lfalse, { demoContra with model := [], conflict := [] })) := by
  refine ⟨solve_of_not_ok st fuel hok, addClause_of_not_ok st ps hok,
    runOps_not_ok ops st hok, rfl, rfl, rfl, ?_⟩
  exact solve_of_not_ok demoContra fuel rfl

/-- Witness for C3 at the concrete contradiction state. -/
theorem contradiction_state_permanent_witness :
    Solver.solve_ 3 demoContra =
      some (.lfalse, { demoContra with model := [], conflict := [] }) :=
  (contradiction_state_permanent demoContra [] 3 [] (by rfl)).1

/-! ## C4: propagation — queue draining and conflict handling -/

theorem listInsert_getD {α : Type} (l : List α) (i : Nat) (x d d' : α) :
    (listInsert l i x d).getD i d' = x := by
  unfold listInsert
  split
  · rename_i h
    have hlt : i < l.length + (i + 1 - l.length) := by omega
    simp [List.getD_eq_getElem?_getD, List.getElem?_set, hlt]
  · rename_i h
    have hlt : i < l.length := by omega
    simp [List.getD_eq_getElem?_getD, List.getElem?_set, hlt]

theorem watchesLookup_snd (p : Nat) (st : Solver) :
    (Solver.watchesLookup p st).2.qhead = st.qhead ∧
    (Solver.watchesLookup p st).2.trail = st.trail := by
  unfold Solver.watchesLookup
  split <;> exact ⟨rfl, rfl⟩

theorem propWatch_qhead_le (p : Nat) (ws : List Watcher) :
    ∀ st acc, st.qhead ≤ st.trail.length →
      (Solver.propWatch p st ws acc).1.qhead ≤
        (Solver.propWatch p st ws acc).1.trail.length := by
  induction ws with
  | nil => intro st acc hq; simpa [Solver.propWatch] using hq
  | cons w rest ih =>
    intro st acc hq
    simp only [Solver.propWatch]
    split
    · exact ih _ _ hq
    · split
      · exact ih _ _ hq
      · split
        · exact ih _ _ hq
        · split
          · simp
          · exact ih _ _
              (by simp [Solver.uncheckedEnqueue, Solver.pwSt1]; omega)

theorem propagateLoop_none_drained (fuel : Nat) :
    ∀ st n st' m, st.qhead ≤ st.trail.length →
      Solver.propagateLoop fuel st n = some (none, st', m) →
      st'.qhead = st'.trail.length := by
  induction fuel with
  | zero =>
    intro st n st' m hq h
    simp only [Solver.propagateLoop] at h
    split at h
    · exact absurd h (by simp)
    · rename_i hge
      obtain ⟨rfl, rfl⟩ : st = st' ∧ n = m := by
        simpa [Prod.ext_iff] using h
      omega
  | succ fuel ih =>
    intro st n st' m hq h
    simp only [Solver.propagateLoop] at h
    split at h
    · rename_i hlt
      rcases hws : Solver.watchesLookup (st.trail.getD st.qhead 0) st with ⟨ws, st1⟩
      rw [hws] at h
      rcases hpw : Solver.propWatch (st.trail.getD st.qhead 0)
          { st1 with qhead := st1.qhead + 1 } ws [] with ⟨st3, kept, confl⟩
      rw [hpw] at h
      have hst1q : st1.qhead = st.qhead ∧ st1.trail = st.trail := by
        have := watchesLookup_snd (st.trail.getD st.qhead 0) st
        rw [hws] at this
        exact this
      cases confl with
      | some cr => simp at h
      | none =>
        refine ih _ _ _ _ ?_ h
        have h2 : ({ st1 with qhead := st1.qhead + 1 } : Solver).qhead ≤
            ({ st1 with qhead := st1.qhead + 1 } : Solver).trail.length := by
          simp [hst1q.1, hst1q.2]; omega
        have h3 := propWatch_qhead_le (st.trail.getD st.qhead 0)
          ws { st1 with qhead := st1.qhead + 1 } [] h2
        rw [hpw] at h3
        exact h3
    · rename_i hge
      obtain ⟨rfl, rfl⟩ : st = st' ∧ n = m := by
        simpa [Prod.ext_iff] using h
      omega

theorem propWatch_conflict (p : Nat) (ws : List Watcher) :
    ∀ st acc st' kept cr,
      Solver.propWatch p st ws acc = (st', kept, some cr) →
      ∃ stMid done w rest keptPre,
        ws = done ++ w :: rest ∧ (w : Watcher).cref = cr ∧
        Solver.findNonFalse (Solver.pwSt1 p stMid cr)
          ((Solver.pwSwap p stMid cr).lits.drop 2) 2 = none ∧
        (Solver.pwSt1 p stMid cr).valueLit (Solver.pwFirst p stMid cr) = .lfalse ∧
        st' = { Solver.pwSt1 p stMid cr with
                  qhead := (Solver.pwSt1 p stMid cr).trail.length } ∧
        kept = keptPre ++ Watcher.mk cr (Solver.pwFirst p stMid cr) :: rest := by
  induction ws with
  | nil => intro st acc st' kept cr h; simp [Solver.propWatch] at h
  | cons w rest ih =>
    intro st acc st' kept cr h
    simp only [Solver.propWatch] at h
    split at h
    · obtain ⟨sm, d, w1, r1, kp, hd, rest2⟩ := ih _ _ _ _ _ h
      exact ⟨sm, w :: d, w1, r1, kp, by rw [hd]; rfl, rest2⟩
    · split at h
      · obtain ⟨sm, d, w1, r1, kp, hd, rest2⟩ := ih _ _ _ _ _ h
        exact ⟨sm, w :: d, w1, r1, kp, by rw [hd]; rfl, rest2⟩
      · split at h
        · obtain ⟨sm, d, w1, r1, kp, hd, rest2⟩ := ih _ _ _ _ _ h
          exact ⟨sm, w :: d, w1, r1, kp, by rw [hd]; rfl, rest2⟩
        · split at h
          · -- the conflict branch itself
            rename_i hfind hfalse
            obtain ⟨hst, hkept, hcr⟩ :
                ({ Solver.pwSt1 p st w.cref with
                    qhead := (Solver.pwSt1 p st w.cref).trail.length } : Solver) = st' ∧
                (acc ++ [⟨w.cref, Solver.pwFirst p st w.cref⟩]) ++ rest = kept ∧
                some w.cref = some cr := by
              simpa [Prod.ext_iff] using h
            obtain rfl : w.cref = cr := Option.some.inj hcr
            refine ⟨st, [], w, rest, acc, rfl, rfl, hfind, hfalse, hst.symm, ?_⟩
            rw [← hkept]
            simp
          · obtain ⟨sm, d, w1, r1, kp, hd, rest2⟩ := ih _ _ _ _ _ h
            exact ⟨sm, w :: d, w1, r1, kp, by rw [hd]; rfl, rest2⟩

theorem propagateLoop_conflict (fuel : Nat) :
    ∀ st n cr st' m, Solver.propagateLoop fuel st n = some (some cr, st', m) →
      ∃ p stMid ws st3 kept,
        Solver.propWatch p stMid ws [] = (st3, kept, some cr) ∧
        st' = { st3 with watchesOcc := listInsert st3.watchesOcc p kept [] } ∧
        st'.watchesOcc.getD p [] = kept := by
  induction fuel with
  | zero =>
    intro st n cr st' m h
    simp only [Solver.propagateLoop] at h
    split at h
    · simp at h
    · simp [Prod.ext_iff] at h
  | succ fuel ih =>
    intro st n cr st' m h
    simp only [Solver.propagateLoop] at h
    split at h
    · rcases hws : Solver.watchesLookup (st.trail.getD st.qhead 0) st with ⟨ws, st1⟩
      rw [hws] at h
      rcases hpw : Solver.propWatch (st.trail.getD st.qhead 0)
          { st1 with qhead := st1.qhead + 1 } ws [] with ⟨st3, kept, confl⟩
      rw [hpw] at h
      cases confl with
      | some cr0 =>
        obtain ⟨hcr, hst, hm⟩ :
            some cr0 = some cr ∧
            ({ st3 with watchesOcc :=
                listInsert st3.watchesOcc (st.trail.getD st.qhead 0) kept [] } : Solver)
              = st' ∧ n + 1 = m := by
          simpa [Prod.ext_iff] using h
        obtain rfl : cr0 = cr := Option.some.inj hcr
        refine ⟨st.trail.getD st.qhead 0, { st1 with qhead := st1.qhead + 1 },
          ws, st3, kept, hpw, hst.symm, ?_⟩
        rw [← hst]
        exact listInsert_getD _ _ _ _ _
      | none => exact ih _ _ _ _ _ h
    · simp [Prod.ext_iff] at h

/-- C4: (i) when `propagate` returns without conflict the propagation queue
is fully drained (`qhead` reaches the end of the trail); (ii) when the
watcher traversal finds a clause with no non-false replacement literal
from index 2 on whose first literal is already false, it stops right
there, returning that clause as the conflict: the state is exactly the
one at that point with `qhead` forced to the trail end (halting the outer
loop immediately), and the watchers not yet processed (`rest`) are
retained verbatim at the tail of the rebuilt watch list; (iii) at the
propagation-loop level, a conflict return comes from exactly such an inner
traversal, whose rebuilt list becomes the watch list of the literal being
processed. -/
theorem propagate_conflict_halts_and_drains :
    (∀ fuel st n st' m, st.qhead ≤ st.trail.length →
        Solver.propagateLoop fuel st n = some (none, st', m) →
        st'.qhead = st'.trail.length) ∧
    (∀ p ws st acc st' kept cr,
        Solver.propWatch p st ws acc = (st', kept, some cr) →
        ∃ stMid done w rest keptPre,
          ws = done ++ w :: rest ∧ (w : Watcher).cref = cr ∧
          Solver.findNonFalse (Solver.pwSt1 p stMid cr)
            ((Solver.pwSwap p stMid cr).lits.drop 2) 2 = none ∧
          (Solver.pwSt1 p stMid cr).valueLit (Solver.pwFirst p stMid cr) = .lfalse ∧
          st' = { Solver.pwSt1 p stMid cr with
                    qhead := (Solver.pwSt1 p stMid cr).trail.length } ∧
          kept = keptPre ++ Watcher.mk cr (Solver.pwFirst p stMid cr) :: rest) ∧
    (∀ fuel st n cr st' m,
        Solver.propagateLoop fuel st n = some (some cr, st', m) →
        ∃ p stMid ws st3 kept,
          Solver.propWatch p stMid ws [] = (st3, kept, some cr) ∧
          st' = { st3 with watchesOcc := listInsert st3.watchesOcc p kept [] } ∧
          st'.watchesOcc.getD p [] = kept) :=
  ⟨propagateLoop_none_drained,
    fun p ws st acc st' kept cr h => propWatch_conflict p ws st acc st' kept cr h,
    propagateLoop_conflict⟩

/-- Witness for C4: the drained case on the one-unit state, and the
conflict case on the two-clause state where propagating `¬x0` must
conflict with the stored clause 1. -/
theorem propagate_conflict_halts_and_drains_witness :
    demoAfterFirst.qhead = demoAfterFirst.trail.length ∧
    ∃ p stMid ws st3 kept,
      Solver.propWatch p stMid ws [] = (st3, kept, some 1) := by
  constructor
  · exact propagate_conflict_halts_and_drains.1 5 demoAfterFirst 0
      demoAfterFirst 0 (by decide) rfl
  · obtain ⟨p, sm, ws, st3, kept, h1, _, _⟩ :=
      propagate_conflict_halts_and_drains.2.2 5 demoConflState 0 1 _ _ rfl
    exact ⟨p, sm, ws, st3, kept, h1⟩

/-! ## C9: `reduceDB` never removes binary or locked learnt clauses -/

section
open Solver (arenaInv caNExtends relocOne relocWs relocOccsPhase relocTrailPhase relocCrs relocAll cleanAll)

theorem getD_set_self {α : Type} (l : List α) (i : Nat) (x d : α)
    (h : i < l.length) : (l.set i x).getD i d = x := by
  simp [List.getD_eq_getElem?_getD, List.getElem?_set, h]

theorem getD_set_ne {α : Type} (l : List α) (i j : Nat) (x d : α)
    (h : i ≠ j) : (l.set i x).getD j d = l.getD j d := by
  simp [List.getD_eq_getElem?_getD, List.getElem?_set, h]

theorem getD_append_lt {α : Type} (l l2 : List α) (i : Nat) (d : α)
    (h : i < l.length) : (l ++ l2).getD i d = l.getD i d := by
  rw [List.getD_eq_getElem?_getD, List.getD_eq_getElem?_getD, List.getElem?_append]
  simp [h]

theorem getD_append_len {α : Type} (l : List α) (c d : α) :
    (l ++ [c]).getD l.length d = c := by
  rw [List.getD_eq_getElem?_getD,
    List.getElem?_append_right (Nat.le_refl _)]
  simp

theorem getD_len_le {α : Type} (l : List α) (i : Nat) (d : α)
    (h : l.length ≤ i) : l.getD i d = d := by
  rw [List.getD_eq_getElem?_getD, List.getElem?_eq_none h]
  rfl

theorem caNExtends_trans {a b c : List Clause}
    (h1 : caNExtends a b) (h2 : caNExtends b c) : caNExtends a c :=
  ⟨le_trans h1.1 h2.1, fun r hr => by rw [h2.2 r (lt_of_lt_of_le hr h1.1), h1.2 r hr]⟩

theorem relocOne_spec (origCa : List Clause) (j0 : Nat) (caO caN : List Clause)
    (hInv : arenaInv origCa caO caN) :
    arenaInv origCa (relocOne j0 caO caN).2.1 (relocOne j0 caO caN).2.2 ∧
    caNExtends caN (relocOne j0 caO caN).2.2 ∧
    (relocOne j0 caO caN).1 < (relocOne j0 caO caN).2.2.length ∧
    ((relocOne j0 caO caN).2.2.getD (relocOne j0 caO caN).1 default).lits =
      (origCa.getD j0 default).lits := by
  unfold relocOne
  cases hrel : (caO.getD j0 default).relocedTo with
  | some r =>
    simp only [hrel]
    have hb := hInv.2 j0 r hrel
    exact ⟨hInv, ⟨le_refl _, fun _ _ => rfl⟩, hb.1, hb.2⟩
  | none =>
    simp only [hrel]
    by_cases hj : j0 < caO.length
    · refine ⟨⟨?_, ?_⟩, ⟨by simp, fun r hr => getD_append_lt _ _ _ _ hr⟩, by simp, ?_⟩
      · intro j
        by_cases hjj : j0 = j
        · subst hjj
          rw [getD_set_self _ _ _ _ hj]
          exact hInv.1 j0
        · rw [getD_set_ne _ _ _ _ _ hjj]
          exact hInv.1 j
      · intro j r hfwd
        by_cases hjj : j0 = j
        · subst hjj
          rw [getD_set_self _ _ _ _ hj] at hfwd
          simp at hfwd
          subst hfwd
          constructor
          · simp
          · rw [getD_append_len]
            exact hInv.1 j0 |>.1
        · rw [getD_set_ne _ _ _ _ _ hjj] at hfwd
          obtain ⟨hlt, hc⟩ := hInv.2 j r hfwd
          exact ⟨by simp; omega, by rw [getD_append_lt _ _ _ _ hlt]; exact hc⟩
      · rw [getD_append_len]
        exact hInv.1 j0 |>.1
    · have hset : caO.set j0 { caO.getD j0 default with
          relocedTo := some caN.length } = caO := by
        apply List.set_eq_of_length_le
        omega
      rw [hset]
      refine ⟨⟨hInv.1, ?_⟩, ⟨by simp, fun r hr => getD_append_lt _ _ _ _ hr⟩, by simp, ?_⟩
      · intro j r hfwd
        obtain ⟨hlt, hc⟩ := hInv.2 j r hfwd
        exact ⟨by simp; omega, by rw [getD_append_lt _ _ _ _ hlt]; exact hc⟩
      · rw [getD_append_len]
        have : (caO.getD j0 default).lits = (origCa.getD j0 default).lits :=
          hInv.1 j0 |>.1
        simpa using this

theorem relocWs_spec (origCa : List Clause) :
    ∀ ws caO caN, arenaInv origCa caO caN →
      arenaInv origCa (relocWs ws caO caN).2.1 (relocWs ws caO caN).2.2 ∧
      caNExtends caN (relocWs ws caO caN).2.2 := by
  intro ws
  induction ws with
  | nil => intro caO caN h; exact ⟨h, le_refl _, fun _ _ => rfl⟩
  | cons w ws ih =>
    intro caO caN h
    have hs := relocOne_spec origCa w.cref caO caN h
    rcases h1 : relocOne w.cref caO caN with ⟨ncr, caO2, caN2⟩
    rw [h1] at hs
    have ihs := ih caO2 caN2 hs.1
    rcases h2 : relocWs ws caO2 caN2 with ⟨rest, caO3, caN3⟩
    rw [h2] at ihs
    simp only [Solver.relocWs, h1, h2]
    exact ⟨ihs.1, caNExtends_trans hs.2.1 ihs.2⟩

theorem relocOccsPhase_spec (origCa : List Clause) :
    ∀ ps occ caO caN, arenaInv origCa caO caN →
      arenaInv origCa (relocOccsPhase ps occ caO caN).2.1
        (relocOccsPhase ps occ caO caN).2.2 ∧
      caNExtends caN (relocOccsPhase ps occ caO caN).2.2 := by
  intro ps
  induction ps with
  | nil => intro occ caO caN h; exact ⟨h, le_refl _, fun _ _ => rfl⟩
  | cons p ps ih =>
    intro occ caO caN h
    have hs := relocWs_spec origCa (occ.getD p []) caO caN h
    rcases h1 : relocWs (occ.getD p []) caO caN with ⟨ws2, caO2, caN2⟩
    rw [h1] at hs
    have ihs := ih (listInsert occ p ws2 []) caO2 caN2 hs.1
    simp only [Solver.relocOccsPhase, h1]
    exact ⟨ihs.1, caNExtends_trans hs.2 ihs.2⟩

theorem relocTrailPhase_spec (origCa : List Clause) (assigns : List LBool) :
    ∀ ps vd caO caN, arenaInv origCa caO caN →
      arenaInv origCa (relocTrailPhase assigns ps vd caO caN).2.1
        (relocTrailPhase assigns ps vd caO caN).2.2 ∧
      caNExtends caN (relocTrailPhase assigns ps vd caO caN).2.2 := by
  intro ps
  induction ps with
  | nil => intro vd caO caN h; exact ⟨h, le_refl _, fun _ _ => rfl⟩
  | cons p ps ih =>
    intro vd caO caN h
    simp only [Solver.relocTrailPhase]
    split
    · exact ih _ _ _ h
    · rename_i cr hr
      split
      · have hs := relocOne_spec origCa cr caO caN h
        rcases h1 : relocOne cr caO caN with ⟨ncr, caO2, caN2⟩
        rw [h1] at hs
        simp only [h1]
        have ihs := ih (listInsert vd (litVar p)
          (mkVarData (some ncr) (vd.getD (litVar p) (mkVarData none 0)).level)
          (mkVarData none 0)) caO2 caN2 hs.1
        exact ⟨ihs.1, caNExtends_trans hs.2.1 ihs.2⟩
      · exact ih _ _ _ h

theorem relocCrs_spec (origCa : List Clause) :
    ∀ crs caO caN, arenaInv origCa caO caN →
      arenaInv origCa (relocCrs crs caO caN).2.1 (relocCrs crs caO caN).2.2 ∧
      caNExtends caN (relocCrs crs caO caN).2.2 ∧
      (∀ cr, cr ∈ crs → (origCa.getD cr default).mark ≠ 1 →
        ∃ ncr, ncr ∈ (relocCrs crs caO caN).1 ∧
          ncr < (relocCrs crs caO caN).2.2.length ∧
          ((relocCrs crs caO caN).2.2.getD ncr default).lits =
            (origCa.getD cr default).lits) := by
  intro crs
  induction crs with
  | nil => intro caO caN h; exact ⟨h, ⟨le_refl _, fun _ _ => rfl⟩, by simp⟩
  | cons c0 crs ih =>
    intro caO caN h
    simp only [Solver.relocCrs]
    split
    · rename_i hmark
      have ihs := ih caO caN h
      refine ⟨ihs.1, ihs.2.1, ?_⟩
      intro cr hmem hm
      rcases List.mem_cons.mp hmem with rfl | hmem2
      · exact absurd (by rw [← (h.1 cr).2]; exact hmark) hm
      · exact ihs.2.2 cr hmem2 hm
    · rename_i hmark
      have hs := relocOne_spec origCa c0 caO caN h
      rcases h1 : relocOne c0 caO caN with ⟨ncr, caO2, caN2⟩
      rw [h1] at hs
      have ihs := ih caO2 caN2 hs.1
      rcases h2 : relocCrs crs caO2 caN2 with ⟨rest, caO3, caN3⟩
      rw [h2] at ihs
      simp only [h1, h2]
      refine ⟨ihs.1, caNExtends_trans hs.2.1 ihs.2.1, ?_⟩
      intro cr hmem hm
      rcases List.mem_cons.mp hmem with rfl | hmem2
      · refine ⟨ncr, by simp, lt_of_lt_of_le hs.2.2.1 ihs.2.1.1, ?_⟩
        rw [ihs.2.1.2 ncr hs.2.2.1]
        exact hs.2.2.2
      · obtain ⟨n2, hn2mem, hn2lt, hn2c⟩ := ihs.2.2 cr hmem2 hm
        exact ⟨n2, by simp [hn2mem], hn2lt, hn2c⟩

theorem relocAll_learnt_preserved (st : Solver) (cr : Nat)
    (hmem : cr ∈ st.learnts) (hmark : (st.ca.getD cr default).mark ≠ 1)
    (hrel : ∀ j, (st.ca.getD j default).relocedTo = none) :
    ∃ nc, nc ∈ (relocAll st).learnts ∧
      ((relocAll st).ca.getD nc default).lits = (st.ca.getD cr default).lits := by
  have hInv0 : arenaInv st.ca st.ca [] :=
    ⟨fun j => ⟨rfl, rfl⟩, fun j r hf => by rw [hrel j] at hf; cases hf⟩
  unfold Solver.relocAll
  have hs1 := relocOccsPhase_spec st.ca
    (List.range (cleanAll st).watchesOcc.length) (cleanAll st).watchesOcc
    (cleanAll st).ca [] hInv0
  rcases h1 : relocOccsPhase (List.range (cleanAll st).watchesOcc.length)
      (cleanAll st).watchesOcc (cleanAll st).ca [] with ⟨occ2, caO1, caN1⟩
  rw [h1] at hs1
  have hs2 := relocTrailPhase_spec st.ca (cleanAll st).assigns
    (cleanAll st).trail (cleanAll st).vardata caO1 caN1 hs1.1
  rcases h2 : relocTrailPhase (cleanAll st).assigns (cleanAll st).trail
      (cleanAll st).vardata caO1 caN1 with ⟨vd2, caO2, caN2⟩
  rw [h2] at hs2
  have hs3 := relocCrs_spec st.ca (cleanAll st).learnts caO2 caN2 hs2.1
  rcases h3 : relocCrs (cleanAll st).learnts caO2 caN2 with ⟨learnts2, caO3, caN3⟩
  rw [h3] at hs3
  have hs4 := relocCrs_spec st.ca (cleanAll st).clauses caO3 caN3 hs3.1
  rcases h4 : relocCrs (cleanAll st).clauses caO3 caN3 with ⟨clauses2, caO4, caN4⟩
  rw [h4] at hs4
  simp only [h1, h2, h3, h4]
  obtain ⟨ncr, hnmem, hnlt, hnc⟩ := hs3.2.2 cr hmem hmark
  refine ⟨ncr, hnmem, ?_⟩
  have hst := hs4.2.1.2 ncr hnlt
  simp only [hst]
  exact hnc

theorem checkGarbage_learnt_preserved (st : Solver) (cr : Nat)
    (hmem : cr ∈ st.learnts) (hmark : (st.ca.getD cr default).mark ≠ 1)
    (hrel : ∀ j, (st.ca.getD j default).relocedTo = none) :
    ∃ nc, nc ∈ (Solver.checkGarbage st).learnts ∧
      ((Solver.checkGarbage st).ca.getD nc default).lits =
        (st.ca.getD cr default).lits := by
  unfold Solver.checkGarbage Solver.garbageCollect
  split
  · exact relocAll_learnt_preserved st cr hmem hmark hrel
  · exact ⟨cr, hmem, rfl⟩

theorem locked_eq_of (st2 st : Solver) (cr : Nat)
    (hca : (st2.ca.getD cr default).lits = (st.ca.getD cr default).lits)
    (ha : st2.assigns = st.assigns) (hv : st2.vardata = st.vardata) :
    Solver.locked cr st2 = Solver.locked cr st := by
  simp only [Solver.locked]
  rw [hca]
  simp only [Solver.valueLit, Solver.valueVar, Solver.reason, ha, hv]

theorem detachClause_fields (cr2 : Nat) (b : Bool) (st : Solver) :
    (Solver.detachClause cr2 b st).ca = st.ca ∧
    (Solver.detachClause cr2 b st).assigns = st.assigns ∧
    (Solver.detachClause cr2 b st).vardata = st.vardata ∧
    (Solver.detachClause cr2 b st).learnts = st.learnts := by
  simp only [Solver.detachClause]
  split <;> split <;> exact ⟨rfl, rfl, rfl, rfl⟩

theorem removeClause_preserves (cr2 : Nat) (st : Solver)
    (hl : Solver.locked cr2 st = false) :
    (Solver.removeClause cr2 st).assigns = st.assigns ∧
    (Solver.removeClause cr2 st).vardata = st.vardata ∧
    (∀ j, ((Solver.removeClause cr2 st).ca.getD j default).lits =
          (st.ca.getD j default).lits) ∧
    (∀ j, ((Solver.removeClause cr2 st).ca.getD j default).relocedTo =
          (st.ca.getD j default).relocedTo) ∧
    (∀ j, j ≠ cr2 → ((Solver.removeClause cr2 st).ca.getD j default).mark =
          (st.ca.getD j default).mark) ∧
    (Solver.removeClause cr2 st).learnts = st.learnts := by
  obtain ⟨hca, has, hvd, hle⟩ := detachClause_fields cr2 false st
  have hl1 : Solver.locked cr2 (Solver.detachClause cr2 false st) = false := by
    rw [locked_eq_of _ st cr2 (by rw [hca]) has hvd]
    exact hl
  unfold Solver.removeClause
  simp only [hl1, Bool.false_eq_true, if_false]
  refine ⟨has, hvd, ?_, ?_, ?_, hle⟩
  · intro j
    by_cases hj : j = cr2
    · subst hj
      by_cases hlen : j < (Solver.detachClause j false st).ca.length
      · rw [getD_set_self _ _ _ _ hlen, hca]
      · rw [List.set_eq_of_length_le (by omega), hca]
    · rw [getD_set_ne _ _ _ _ _ (fun he => hj he.symm), hca]
  · intro j
    by_cases hj : j = cr2
    · subst hj
      by_cases hlen : j < (Solver.detachClause j false st).ca.length
      · rw [getD_set_self _ _ _ _ hlen, hca]
      · rw [List.set_eq_of_length_le (by omega), hca]
    · rw [getD_set_ne _ _ _ _ _ (fun he => hj he.symm), hca]
  · intro j hj
    rw [getD_set_ne _ _ _ _ _ (fun he => hj he.symm), hca]

theorem reduceDBLoop_spec (el : Rat) (len : Nat) (cr : Nat) :
    ∀ crs i kept st,
      ((st.ca.getD cr default).lits.length = 2 ∨ Solver.locked cr st = true) →
      (Solver.reduceDBLoop el len crs i kept st).2.assigns = st.assigns ∧
      (Solver.reduceDBLoop el len crs i kept st).2.vardata = st.vardata ∧
      (∀ j, ((Solver.reduceDBLoop el len crs i kept st).2.ca.getD j default).lits =
            (st.ca.getD j default).lits) ∧
      (∀ j, ((Solver.reduceDBLoop el len crs i kept st).2.ca.getD j default).relocedTo
            = (st.ca.getD j default).relocedTo) ∧
      ((Solver.reduceDBLoop el len crs i kept st).2.ca.getD cr default).mark =
            (st.ca.getD cr default).mark ∧
      (Solver.reduceDBLoop el len crs i kept st).2.learnts = st.learnts ∧
      ((cr ∈ crs ∨ cr ∈ kept) → cr ∈ (Solver.reduceDBLoop el len crs i kept st).1) := by
  intro crs
  induction crs with
  | nil =>
    intro i kept st hbin
    refine ⟨rfl, rfl, fun _ => rfl, fun _ => rfl, rfl, rfl, ?_⟩
    intro h
    simpa [Solver.reduceDBLoop] using h.resolve_left (by simp)
  | cons c0 crs ih =>
    intro i kept st hbin
    simp only [Solver.reduceDBLoop]
    split
    · rename_i hcond
      have hne : c0 ≠ cr := by
        intro he
        subst he
        rcases hbin with hb | hb
        · have h1 := hcond.1
          unfold Clause.size at h1
          omega
        · rw [hcond.2.1] at hb
          cases hb
      have hrc := removeClause_preserves c0 st hcond.2.1
      have hbin2 : ((Solver.removeClause c0 st).ca.getD cr default).lits.length = 2 ∨
          Solver.locked cr (Solver.removeClause c0 st) = true := by
        rcases hbin with hb | hb
        · exact Or.inl (by rw [hrc.2.2.1 cr]; exact hb)
        · exact Or.inr (by
            rw [locked_eq_of _ st cr (hrc.2.2.1 cr) hrc.1 hrc.2.1]; exact hb)
      obtain ⟨ha, hv, hli, hre, hm, hlearnt, hmem⟩ := ih (i + 1) kept
        (Solver.removeClause c0 st) hbin2
      refine ⟨ha.trans hrc.1, hv.trans hrc.2.1,
        fun j => (hli j).trans (hrc.2.2.1 j),
        fun j => (hre j).trans (hrc.2.2.2.1 j),
        hm.trans (hrc.2.2.2.2.1 cr (fun he => hne he.symm)),
        hlearnt.trans hrc.2.2.2.2.2, ?_⟩
      intro h
      apply hmem
      rcases h with h | h
      · rcases List.mem_cons.mp h with rfl | h2
        · exact absurd rfl hne
        · exact Or.inl h2
      · exact Or.inr h
    · obtain ⟨ha, hv, hli, hre, hm, hlearnt, hmem⟩ := ih (i + 1) (kept ++ [c0]) st hbin
      refine ⟨ha, hv, hli, hre, hm, hlearnt, ?_⟩
      intro h
      apply hmem
      rcases h with h | h
      · rcases List.mem_cons.mp h with rfl | h2
        · exact Or.inr (by simp)
        · exact Or.inl h2
      · exact Or.inr (by simp [h])

/-- C9: `reduceDB` never removes a binary (size-2) learnt clause or a
locked one (a clause that is the reason of a current assignment): every
such clause present in the learnt database before the call is still
present after it, with identical literals, even when the reduction
triggers a garbage collection that renumbers clause references.  (The
hypotheses `hmark`/`hrel` state that the clause is live and that no stale
relocation forwarding is pending, which hold for every reachable state.) -/
theorem reduceDB_keeps_binary_and_locked (st : Solver) (cr : Nat)
    (hmem : cr ∈ st.learnts)
    (hbin : (st.ca.getD cr default).size = 2 ∨ Solver.locked cr st = true)
    (hmark : (st.ca.getD cr default).mark ≠ 1)
    (hrel : ∀ j, (st.ca.getD j default).relocedTo = none) :
    ∃ nc, nc ∈ (Solver.reduceDB st).learnts ∧
      ((Solver.reduceDB st).ca.getD nc default).lits =
        (st.ca.getD cr default).lits := by
  simp only [Solver.reduceDB]
  have hmem2 : cr ∈ Solver.sortByLt (Solver.reduceDB_lt st.ca) st.learnts := by
    unfold Solver.sortByLt
    exact (List.perm_insertionSort _ _).mem_iff.mpr hmem
  have hbin1 :
      ((({ st with learnts := Solver.sortByLt (Solver.reduceDB_lt st.ca) st.learnts }
          : Solver)).ca.getD cr default).lits.length = 2 ∨
      Solver.locked cr
        { st with learnts := Solver.sortByLt (Solver.reduceDB_lt st.ca) st.learnts }
        = true := by
    rcases hbin with hb | hb
    · left; unfold Clause.size at hb; exact hb
    · right
      rw [locked_eq_of
        { st with learnts := Solver.sortByLt (Solver.reduceDB_lt st.ca) st.learnts }
        st cr rfl rfl rfl]
      exact hb
  have hspec := reduceDBLoop_spec (st.cla_inc / (st.learnts.length : Rat))
    (Solver.sortByLt (Solver.reduceDB_lt st.ca) st.learnts).length cr
    (Solver.sortByLt (Solver.reduceDB_lt st.ca) st.learnts) 0 []
    { st with learnts := Solver.sortByLt (Solver.reduceDB_lt st.ca) st.learnts }
    hbin1
  rcases hl : Solver.reduceDBLoop (st.cla_inc / (st.learnts.length : Rat))
      (Solver.sortByLt (Solver.reduceDB_lt st.ca) st.learnts).length
      (Solver.sortByLt (Solver.reduceDB_lt st.ca) st.learnts) 0 []
      { st with learnts := Solver.sortByLt (Solver.reduceDB_lt st.ca) st.learnts }
    with ⟨kept, st1⟩
  rw [hl] at hspec
  simp only [hl]
  obtain ⟨ha, hv, hli, hre, hm, hlearnt, hmemf⟩ := hspec
  have hmem3 : cr ∈ ({ st1 with learnts := kept } : Solver).learnts :=
    hmemf (Or.inl hmem2)
  have hmark3 : (({ st1 with learnts := kept } : Solver).ca.getD cr default).mark
      ≠ 1 := by
    show (st1.ca.getD cr default).mark ≠ 1
    rw [hm]; exact hmark
  have hrel3 : ∀ j,
      (({ st1 with learnts := kept } : Solver).ca.getD j default).relocedTo
        = none := by
    intro j
    show (st1.ca.getD j default).relocedTo = none
    rw [hre j]; exact hrel j
  obtain ⟨nc, hncm, hncl⟩ := checkGarbage_learnt_preserved
    { st1 with learnts := kept } cr hmem3 hmark3 hrel3
  refine ⟨nc, hncm, ?_⟩
  rw [hncl]
  show (st1.ca.getD cr default).lits = (st.ca.getD cr default).lits
  exact hli cr

/-- Witness for C9: a binary learnt clause survives `reduceDB` on a
concrete state. -/
theorem reduceDB_keeps_binary_and_locked_witness :
    ∃ nc, nc ∈ (Solver.reduceDB demoLearntState).learnts ∧
      ((Solver.reduceDB demoLearntState).ca.getD nc default).lits =
        (demoLearntState.ca.getD 0 default).lits :=
  reduceDB_keeps_binary_and_locked demoLearntState 0 (by simp [demoLearntState])
    (Or.inl (by rfl)) (by decide) (fun j => by cases j <;> rfl)


/-! ## C6: `cancelUntil` — trail levels and the order heap -/

theorem getD_take {a : Type} (l : List a) (n i : Nat) (d : a)
    (h : i < n) : (l.take n).getD i d = l.getD i d := by
  rw [List.getD_eq_getElem?_getD, List.getD_eq_getElem?_getD, List.getElem?_take]
  simp [h]

theorem insertVarOrder_fields (x : Nat) (st : Solver) :
    (Solver.insertVarOrder x st).decision = st.decision ∧
    (Solver.insertVarOrder x st).assigns = st.assigns ∧
    (Solver.insertVarOrder x st).vardata = st.vardata ∧
    (Solver.insertVarOrder x st).trail = st.trail ∧
    (Solver.insertVarOrder x st).trail_lim = st.trail_lim := by
  unfold Solver.insertVarOrder
  split <;> exact ⟨rfl, rfl, rfl, rfl, rfl⟩

theorem insertVarOrder_mono (x v : Nat) (st : Solver)
    (h : v ∈ st.order_heap) : v ∈ (Solver.insertVarOrder x st).order_heap := by
  unfold Solver.insertVarOrder
  split
  · exact h
  · exact List.mem_append_left _ h

theorem insertVarOrder_self_mem (x : Nat) (st : Solver)
    (hd : st.decision.getD x false = true) :
    x ∈ (Solver.insertVarOrder x st).order_heap := by
  unfold Solver.insertVarOrder
  split
  · rename_i hc
    rcases hc with hc | hc
    · exact hc
    · rw [hd] at hc; exact Bool.noConfusion hc
  · exact List.mem_append_right _ (List.mem_singleton.mpr rfl)

theorem undoOne_fields (c lastLim : Nat) (st : Solver) :
    (Solver.undoOne c lastLim st).decision = st.decision ∧
    (Solver.undoOne c lastLim st).vardata = st.vardata ∧
    (Solver.undoOne c lastLim st).trail = st.trail ∧
    (Solver.undoOne c lastLim st).trail_lim = st.trail_lim ∧
    (Solver.undoOne c lastLim st).assigns =
      st.assigns.set (litVar (st.trail.getD c 0)) .lundef := by
  simp only [Solver.undoOne]
  split <;>
    exact ⟨(insertVarOrder_fields _ _).1, (insertVarOrder_fields _ _).2.2.1,
      (insertVarOrder_fields _ _).2.2.2.1, (insertVarOrder_fields _ _).2.2.2.2,
      (insertVarOrder_fields _ _).2.1⟩

theorem undoOne_heap_mono (c lastLim : Nat) (st : Solver) (v : Nat)
    (h : v ∈ st.order_heap) : v ∈ (Solver.undoOne c lastLim st).order_heap := by
  simp only [Solver.undoOne]
  split <;> exact insertVarOrder_mono _ _ _ h

theorem undoOne_heapInv (c lastLim : Nat) (st : Solver)
    (h : ∀ v, st.decision.getD v false = true → st.valueVar v = .lundef →
      v ∈ st.order_heap) (v : Nat)
    (hd : (Solver.undoOne c lastLim st).decision.getD v false = true)
    (hu : (Solver.undoOne c lastLim st).valueVar v = .lundef) :
    v ∈ (Solver.undoOne c lastLim st).order_heap := by
  obtain ⟨hdec, _, _, _, has⟩ := undoOne_fields c lastLim st
  rw [hdec] at hd
  by_cases hx : v = litVar (st.trail.getD c 0)
  · subst hx
    simp only [Solver.undoOne]
    split <;> exact insertVarOrder_self_mem _ _ hd
  · have hpre : st.valueVar v = .lundef := by
      unfold Solver.valueVar at hu ⊢
      rw [has, getD_set_ne _ _ _ _ _ (fun he => hx he.symm)] at hu
      exact hu
    exact undoOne_heap_mono c lastLim st v (h v hd hpre)

theorem cancelLoop_fields (lastLim lim k : Nat) (st : Solver) :
    (Solver.cancelLoop lastLim lim k st).vardata = st.vardata ∧
    (Solver.cancelLoop lastLim lim k st).trail = st.trail ∧
    (Solver.cancelLoop lastLim lim k st).trail_lim = st.trail_lim := by
  induction k generalizing st with
  | zero => exact ⟨rfl, rfl, rfl⟩
  | succ n ih =>
    simp only [Solver.cancelLoop]
    obtain ⟨h1, h2, h3⟩ := ih (Solver.undoOne (lim + n) lastLim st)
    obtain ⟨_, hv, ht, hl, _⟩ := undoOne_fields (lim + n) lastLim st
    exact ⟨h1.trans hv, h2.trans ht, h3.trans hl⟩

theorem cancelLoop_heapInv (lastLim lim k : Nat) (st : Solver)
    (h : ∀ v, st.decision.getD v false = true → st.valueVar v = .lundef →
      v ∈ st.order_heap) :
    ∀ v, (Solver.cancelLoop lastLim lim k st).decision.getD v false = true →
      (Solver.cancelLoop lastLim lim k st).valueVar v = .lundef →
      v ∈ (Solver.cancelLoop lastLim lim k st).order_heap := by
  induction k generalizing st with
  | zero => exact h
  | succ n ih =>
    simp only [Solver.cancelLoop]
    exact ih _ (undoOne_heapInv (lim + n) lastLim st h)

/-- C6, first conjunct as claimed and second conjunct refuted: the claim
says the order heap contains EXACTLY the unassigned decision variables,
but after a genuine backtrack from level 1 to level 0 the heap still holds
variable 0, which stays assigned at level 0 — the solver removes stale
heap entries lazily, in `pickBranchLit`, never in `cancelUntil`. -/
theorem cancelUntil_heap_not_exact :
    ¬ (∀ v, v ∈ (Solver.cancelUntil 0 demoBacktrackInput).order_heap ↔
        ((Solver.cancelUntil 0 demoBacktrackInput).decision.getD v false = true ∧
         (Solver.cancelUntil 0 demoBacktrackInput).valueVar v = .lundef)) := by
  intro h
  have h0 := (h 0).mp (by decide)
  have hv : (Solver.cancelUntil 0 demoBacktrackInput).valueVar 0 = .ltrue := by
    decide
  rw [hv] at h0
  exact absurd h0.2 (by decide)

/-- C6 (amended): after `cancelUntil(level)` on a state whose trail-limit
stack is consistent with the recorded assignment levels and whose order
heap already contains every unassigned decision variable, every literal
remaining on the trail has decision level at most `level`, and the order
heap contains at least every decision variable left unassigned (it may
also retain assigned variables; those are skipped lazily inside
`pickBranchLit`). -/
theorem cancelUntil_trail_levels_and_heap (st : Solver) (lvl : Nat)
    (htl : ∀ l, l < st.trail_lim.length → ∀ c, c < st.trail_lim.getD l 0 →
      st.level (litVar (st.trail.getD c 0)) ≤ l)
    (hall : ∀ c, c < st.trail.length →
      st.level (litVar (st.trail.getD c 0)) ≤ st.decisionLevel)
    (hheap : ∀ v, st.decision.getD v false = true → st.valueVar v = .lundef →
      v ∈ st.order_heap) :
    (∀ c, c < (Solver.cancelUntil lvl st).trail.length →
      (Solver.cancelUntil lvl st).level
        (litVar ((Solver.cancelUntil lvl st).trail.getD c 0)) ≤ lvl) ∧
    (∀ v, (Solver.cancelUntil lvl st).decision.getD v false = true →
      (Solver.cancelUntil lvl st).valueVar v = .lundef →
      v ∈ (Solver.cancelUntil lvl st).order_heap) := by
  simp only [Solver.cancelUntil]
  split
  · rename_i hgt
    obtain ⟨hvd, htr, _⟩ := cancelLoop_fields
      (st.trail_lim.getD (st.trail_lim.length - 1) 0) (st.trail_lim.getD lvl 0)
      (st.trail.length - st.trail_lim.getD lvl 0) st
    constructor
    · intro c hc
      simp only [htr, List.length_take] at hc
      have hclt : c < st.trail_lim.getD lvl 0 := lt_of_lt_of_le hc (min_le_left _ _)
      have hlvl : lvl < st.trail_lim.length := hgt
      show ((Solver.cancelLoop _ _ _ st).vardata.getD
        (litVar (((Solver.cancelLoop _ _ _ st).trail.take
          (st.trail_lim.getD lvl 0)).getD c 0)) ⟨none, 0⟩).level ≤ lvl
      rw [hvd, htr, getD_take _ _ _ _ hclt]
      exact htl lvl hlvl c hclt
    · intro v hd hu
      exact cancelLoop_heapInv _ _ _ st hheap v hd hu
  · rename_i hle
    refine ⟨fun c hc => Nat.le_trans (hall c hc) ?_, hheap⟩
    exact Nat.le_of_not_lt hle

/-- Witness for the amended C6 theorem on a concrete backtracking call. -/
theorem cancelUntil_trail_levels_and_heap_witness :
    (∀ c, c < (Solver.cancelUntil 0 demoBacktrackInput).trail.length →
      (Solver.cancelUntil 0 demoBacktrackInput).level
        (litVar ((Solver.cancelUntil 0 demoBacktrackInput).trail.getD c 0)) ≤ 0) ∧
    (∀ v, (Solver.cancelUntil 0 demoBacktrackInput).decision.getD v false = true →
      (Solver.cancelUntil 0 demoBacktrackInput).valueVar v = .lundef →
      v ∈ (Solver.cancelUntil 0 demoBacktrackInput).order_heap) :=
  cancelUntil_trail_levels_and_heap demoBacktrackInput 0
    (by decide)
    (by decide)
    (by
      intro v hd hu
      rcases v with _ | (_ | n)
      · exact absurd hu (by decide)
      · decide
      · have hz : demoBacktrackInput.decision.getD (n + 2) false = false := rfl
        rw [hz] at hd
        exact Bool.noConfusion hd)


/-! ## C7: the polarity selection order of `pickBranchLit` -/

/-- C7: when the selection phase of `pickBranchLit` yields a variable `nv`
with intermediate state `st3`, the polarity of the returned branching
literal follows exactly the priority ladder stated by the specification
(`Solver.pickPolarityClaim`: user-forced polarity, else random polarity, else
saved phase, else the default-polarity/`true` split at `nVars()/3`);
moreover, when the initial random draw falls below `random_var_freq` and
the uniformly indexed heap variable is an unassigned decision variable,
that random variable is the selected one. -/
theorem pickBranchLit_polarity_order (st st3 : Solver) (nv : Nat)
    (h : Solver.pickNext st = (some nv, st3)) :
    (Solver.pickBranchLit st).1 =
      some (mkLit nv (Solver.pickPolarityClaim (st.nVars / 3) st3 nv)) ∧
    (∀ r st1, st.drand = (r, st1) → r < st.random_var_freq →
      st1.order_heap ≠ [] →
      ∀ i sta, st1.irand st1.order_heap.length = (i, sta) →
      sta.valueVar (sta.order_heap.getD i 0) = .lundef →
      sta.decision.getD (sta.order_heap.getD i 0) false = true →
      nv = sta.order_heap.getD i 0) := by
  constructor
  · simp only [Solver.pickBranchLit, h]
    unfold Solver.pickPolarityClaim
    split_ifs <;>
      first
        | rfl
        | (rcases hdr : st3.drand with ⟨r2, st4⟩
           rw [hdr])
        | simp_all
  · intro r st1 hdr hfreq hne i sta hir hval hdec
    simp only [Solver.pickNext, hdr] at h
    rw [if_pos ⟨hfreq, hne⟩] at h
    simp only [hir] at h
    rw [if_pos ⟨hval, hdec⟩] at h
    simp only [Solver.pickLoop] at h
    split at h
    · injection h with ha _
      injection ha with ha2
      exact ha2.symm
    · rename_i hc
      unfold Solver.valueVar at hval
      refine absurd ?_ hc
      show (decide (sta.assigns.getD (sta.order_heap.getD i 0) .lundef = .lundef)
          && sta.decision.getD (sta.order_heap.getD i 0) false) = true
      rw [hval, hdec]
      rfl

/-- Witness for C7 on the fresh two-variable solver, where the selection
phase picks variable 0. -/
theorem pickBranchLit_polarity_order_witness :
    ((Solver.pickBranchLit demo2).1 =
      some (mkLit 0 (Solver.pickPolarityClaim (demo2.nVars / 3)
        (Solver.pickNext demo2).2 0)) ∧
    (∀ r st1, demo2.drand = (r, st1) → r < demo2.random_var_freq →
      st1.order_heap ≠ [] →
      ∀ i sta, st1.irand st1.order_heap.length = (i, sta) →
      sta.valueVar (sta.order_heap.getD i 0) = .lundef →
      sta.decision.getD (sta.order_heap.getD i 0) false = true →
      0 = sta.order_heap.getD i 0)) :=
  pickBranchLit_polarity_order demo2 (Solver.pickNext demo2).2 0 rfl


/-! ## C8: activity bump channels and per-conflict decays -/

set_option maxRecDepth 4096 in
/-- C8: in the literal scan of `analyze`, a not-yet-seen variable assigned
above level 0 has its activity bumped before the scan continues — through
the alternate channel (`varBumpActivity_New1`, adding the separately
maintained increment `var_inc1`) exactly when its index is below
`nVars()/3` and it is currently assigned true, and through the ordinary
channel (`varBumpActivity`, adding `var_inc`) otherwise (stated below the
rescale threshold); and on every conflict the search loop passes the
post-conflict state through `varDecayActivity`, `varDecayActivity_New1`
and `claDecayActivity`, so each increment is divided by its own decay
factor before the next iteration. -/
theorem analyze_bump_channels_and_decays (dl : Nat) (st : Solver) (q : Nat)
    (qs : List Nat) (pathC : Nat) (out : List Nat)
    (hseen : st.seen.getD (litVar q) 0 = 0)
    (hlvl : st.level (litVar q) > 0)
    (hno1 : ¬ st.activity.getD (litVar q) 0 + st.var_inc1 > Solver.rescaleLimVar)
    (hno : ¬ st.activity.getD (litVar q) 0 + st.var_inc > Solver.rescaleLimVar) :
    (∃ st2 pathC2 out2,
      Solver.analyzeClauseLits dl st (q :: qs) pathC out =
        Solver.analyzeClauseLits dl st2 qs pathC2 out2 ∧
      st2.seen.getD (litVar q) 0 = 1 ∧
      ((litVar q < st.nVars / 3 ∧ st.valueVar (litVar q) = .ltrue) →
        st2.activity.getD (litVar q) 0 =
          st.activity.getD (litVar q) 0 + st.var_inc1 ∧
        st2.var_inc = st.var_inc ∧ st2.var_inc1 = st.var_inc1) ∧
      (¬ (litVar q < st.nVars / 3 ∧ st.valueVar (litVar q) = .ltrue) →
        st2.activity.getD (litVar q) 0 =
          st.activity.getD (litVar q) 0 + st.var_inc ∧
        st2.var_inc = st.var_inc ∧ st2.var_inc1 = st.var_inc1)) ∧
    (∀ (fuel : Nat) (nof : Int) (conflictC : Nat) (s s1 : Solver) (confl : Nat),
      s.propagate = some (some confl, s1) →
      s1.decisionLevel ≠ 0 →
      ∀ (learnt : List Nat) (btlevel : Nat) (s3 : Solver),
        Solver.analyze
          (Solver.analyzeFuelOf { s1 with conflicts := s1.conflicts + 1 }) confl
          { s1 with conflicts := s1.conflicts + 1 } =
          some (learnt, btlevel, s3) →
      ∃ st5 : Solver,
        Solver.searchLoop (fuel + 1) nof conflictC s =
          Solver.searchLoop fuel nof (conflictC + 1)
            (Solver.searchAdjust (Solver.claDecayActivity
              (Solver.varDecayActivityNew1 (Solver.varDecayActivity st5)))) ∧
        (Solver.claDecayActivity (Solver.varDecayActivityNew1
            (Solver.varDecayActivity st5))).var_inc =
          st5.var_inc * (1 / st5.var_decay) ∧
        (Solver.claDecayActivity (Solver.varDecayActivityNew1
            (Solver.varDecayActivity st5))).var_inc1 =
          st5.var_inc1 * (1 / st5.var_decay1) ∧
        (Solver.claDecayActivity (Solver.varDecayActivityNew1
            (Solver.varDecayActivity st5))).cla_inc =
          st5.cla_inc * (1 / st5.clause_decay)) := by
  constructor
  · simp only [Solver.analyzeClauseLits]
    rw [if_pos ⟨hseen, hlvl⟩]
    by_cases hcond : litVar q < st.nVars / 3 ∧ st.valueVar (litVar q) = .ltrue
    · rw [if_pos hcond]
      have hb : Solver.varBumpActivityNew1 (litVar q) st =
          { st with activity := listInsert st.activity (litVar q) (st.activity.getD (litVar q) 0 + st.var_inc1) 0 } := by
        simp only [Solver.varBumpActivityNew1]
        rw [if_neg hno1]
      split
      · refine ⟨_, _, _, rfl, ?_, ?_, ?_⟩
        · exact listInsert_getD _ _ _ _ _
        · exact fun _ => ⟨by rw [hb]; exact listInsert_getD _ _ _ _ _,
            by rw [hb], by rw [hb]⟩
        · exact fun hk => absurd hcond hk
      · refine ⟨_, _, _, rfl, ?_, ?_, ?_⟩
        · exact listInsert_getD _ _ _ _ _
        · exact fun _ => ⟨by rw [hb]; exact listInsert_getD _ _ _ _ _,
            by rw [hb], by rw [hb]⟩
        · exact fun hk => absurd hcond hk
    · rw [if_neg hcond]
      have hb : Solver.varBumpActivity (litVar q) st =
          { st with activity := listInsert st.activity (litVar q) (st.activity.getD (litVar q) 0 + st.var_inc) 0 } := by
        simp only [Solver.varBumpActivity]
        rw [if_neg hno]
      split
      · refine ⟨_, _, _, rfl, ?_, ?_, ?_⟩
        · exact listInsert_getD _ _ _ _ _
        · exact fun hk => absurd hk hcond
        · exact fun _ => ⟨by rw [hb]; exact listInsert_getD _ _ _ _ _,
            by rw [hb], by rw [hb]⟩
      · refine ⟨_, _, _, rfl, ?_, ?_, ?_⟩
        · exact listInsert_getD _ _ _ _ _
        · exact fun hk => absurd hk hcond
        · exact fun _ => ⟨by rw [hb]; exact listInsert_getD _ _ _ _ _,
            by rw [hb], by rw [hb]⟩
  · intro fuel nof conflictC s s1 confl hprop hdl learnt btlevel s3 hana
    simp only [Solver.searchLoop, hprop]
    rw [if_neg (show
      ¬ ({ s1 with conflicts := s1.conflicts + 1 } : Solver).decisionLevel = 0
      from hdl)]
    simp only [hana]
    exact ⟨_, rfl, rfl, rfl, rfl⟩


set_option maxRecDepth 8192 in
/-- Witness for C8 on a concrete state: scanning the trail literal of `x1`
(unseen, assigned at level 1) in the two-variable backtracking scenario. -/
theorem analyze_bump_channels_and_decays_witness :
    (∃ st2 pathC2 out2,
      Solver.analyzeClauseLits 1 demoBacktrackInput [2] 0 [] =
        Solver.analyzeClauseLits 1 st2 [] pathC2 out2 ∧
      st2.seen.getD (litVar 2) 0 = 1 ∧
      ((litVar 2 < demoBacktrackInput.nVars / 3 ∧
          demoBacktrackInput.valueVar (litVar 2) = .ltrue) →
        st2.activity.getD (litVar 2) 0 =
          demoBacktrackInput.activity.getD (litVar 2) 0 +
            demoBacktrackInput.var_inc1 ∧
        st2.var_inc = demoBacktrackInput.var_inc ∧
        st2.var_inc1 = demoBacktrackInput.var_inc1) ∧
      (¬ (litVar 2 < demoBacktrackInput.nVars / 3 ∧
          demoBacktrackInput.valueVar (litVar 2) = .ltrue) →
        st2.activity.getD (litVar 2) 0 =
          demoBacktrackInput.activity.getD (litVar 2) 0 +
            demoBacktrackInput.var_inc ∧
        st2.var_inc = demoBacktrackInput.var_inc ∧
        st2.var_inc1 = demoBacktrackInput.var_inc1)) ∧
    (∀ (fuel : Nat) (nof : Int) (conflictC : Nat) (s s1 : Solver) (confl : Nat),
      s.propagate = some (some confl, s1) →
      s1.decisionLevel ≠ 0 →
      ∀ (learnt : List Nat) (btlevel : Nat) (s3 : Solver),
        Solver.analyze
          (Solver.analyzeFuelOf { s1 with conflicts := s1.conflicts + 1 }) confl
          { s1 with conflicts := s1.conflicts + 1 } =
          some (learnt, btlevel, s3) →
      ∃ st5 : Solver,
        Solver.searchLoop (fuel + 1) nof conflictC s =
          Solver.searchLoop fuel nof (conflictC + 1)
            (Solver.searchAdjust (Solver.claDecayActivity
              (Solver.varDecayActivityNew1 (Solver.varDecayActivity st5)))) ∧
        (Solver.claDecayActivity (Solver.varDecayActivityNew1
            (Solver.varDecayActivity st5))).var_inc =
          st5.var_inc * (1 / st5.var_decay) ∧
        (Solver.claDecayActivity (Solver.varDecayActivityNew1
            (Solver.varDecayActivity st5))).var_inc1 =
          st5.var_inc1 * (1 / st5.var_decay1) ∧
        (Solver.claDecayActivity (Solver.varDecayActivityNew1
            (Solver.varDecayActivity st5))).cla_inc =
          st5.cla_inc * (1 / st5.clause_decay)) :=
  analyze_bump_channels_and_decays 1 demoBacktrackInput 2 [] 0 []
    (by decide) (by decide)
    (by
      show ¬ (0 : Rat) + 1 > Solver.rescaleLimVar
      norm_num [Solver.rescaleLimVar])
    (by
      show ¬ (0 : Rat) + 1 > Solver.rescaleLimVar
      norm_num [Solver.rescaleLimVar])


/-! ## C5: the asserting literal and the backtrack level of `analyze` -/

theorem getD_of_drop_cons {a : Type} (l : List a) (i : Nat) (q : a)
    (t : List a) (d : a) (h : l.drop i = q :: t) : l.getD i d = q := by
  have hx : (l.drop i)[0]? = some q := by rw [h]; simp
  rw [List.getElem?_drop] at hx
  simp only [Nat.add_zero] at hx
  simp [List.getD_eq_getElem?_getD, hx]

theorem drop_cons_next {a : Type} (l : List a) (i : Nat) (q : a)
    (t : List a) (h : l.drop i = q :: t) : t = l.drop (i + 1) := by
  have h2 : l.drop (i + 1) = (l.drop i).drop 1 := by rw [List.drop_drop]
  rw [h2, h]
  rfl

theorem lt_length_of_drop_cons {a : Type} (l : List a) (i : Nat) (q : a)
    (t : List a) (h : l.drop i = q :: t) : i < l.length := by
  by_contra hc
  rw [List.drop_eq_nil_of_le (Nat.le_of_not_lt hc)] at h
  cases h

theorem argmaxLevel_spec (st : Solver) (learnt : List Nat) (qs : List Nat) :
    ∀ (i maxI maxLvl : Nat),
      qs = learnt.drop i →
      maxLvl = st.level (litVar (learnt.getD maxI 0)) →
      1 ≤ maxI → maxI < learnt.length → 1 ≤ i →
      (∀ j, 1 ≤ j → j < i → st.level (litVar (learnt.getD j 0)) ≤ maxLvl) →
      1 ≤ Solver.argmaxLevel st qs i maxI maxLvl ∧
      Solver.argmaxLevel st qs i maxI maxLvl < learnt.length ∧
      ∀ j, 1 ≤ j → j < learnt.length →
        st.level (litVar (learnt.getD j 0)) ≤
          st.level
            (litVar (learnt.getD (Solver.argmaxLevel st qs i maxI maxLvl) 0)) := by
  induction qs with
  | nil =>
    intro i maxI maxLvl hq hm h1 h2 hi h3
    simp only [Solver.argmaxLevel]
    refine ⟨h1, h2, ?_⟩
    intro j hj1 hjl
    have hlen : learnt.length ≤ i := by
      rw [← List.drop_eq_nil_iff]
      exact hq.symm
    rw [← hm]
    exact h3 j hj1 (lt_of_lt_of_le hjl hlen)
  | cons q qs ih =>
    intro i maxI maxLvl hq hm h1 h2 hi h3
    have hqi : learnt.getD i 0 = q := getD_of_drop_cons _ _ _ _ _ hq.symm
    have ht : qs = learnt.drop (i + 1) := drop_cons_next _ _ _ _ hq.symm
    have hilt : i < learnt.length := lt_length_of_drop_cons _ _ _ _ hq.symm
    simp only [Solver.argmaxLevel]
    split
    · rename_i hgt
      exact ih (i + 1) i (st.level (litVar q)) ht (by rw [hqi]) hi hilt
        (by omega)
        (fun j hj1 hj2 => by
          rcases Nat.lt_or_ge j i with hlt | hge
          · exact le_trans (h3 j hj1 hlt) (Nat.le_of_lt hgt)
          · have : j = i := by omega
            subst this
            rw [hqi])
    · rename_i hle
      exact ih (i + 1) maxI maxLvl ht hm h1 h2 (by omega)
        (fun j hj1 hj2 => by
          rcases Nat.lt_or_ge j i with hlt | hge
          · exact h3 j hj1 hlt
          · have : j = i := by omega
            subst this
            rw [hqi]
            exact Nat.le_of_not_lt hle)

theorem analyzeBtLevel_spec (st : Solver) (learnt : List Nat)
    (hlen : learnt.length ≠ 1) (hlen2 : 2 ≤ learnt.length) :
    (Solver.analyzeBtLevel st learnt).1.getD 0 0 = learnt.getD 0 0 ∧
    (Solver.analyzeBtLevel st learnt).1.length = learnt.length ∧
    (Solver.analyzeBtLevel st learnt).2 =
      st.level (litVar ((Solver.analyzeBtLevel st learnt).1.getD 1 0)) ∧
    ∀ j, 1 ≤ j → j < learnt.length →
      st.level (litVar ((Solver.analyzeBtLevel st learnt).1.getD j 0)) ≤
        (Solver.analyzeBtLevel st learnt).2 := by
  obtain ⟨hr1, hr2, hr3⟩ := argmaxLevel_spec st learnt (learnt.drop 2) 2 1
    (st.level (litVar (learnt.getD 1 0))) rfl rfl (Nat.le_refl 1) (by omega)
    (by omega)
    (fun j hj1 hj2 => by
      have : j = 1 := by omega
      subst this
      exact Nat.le_refl _)
  simp only [Solver.analyzeBtLevel]
  rw [if_neg hlen]
  refine ⟨?_, ?_, ?_, ?_⟩
  · rw [getD_set_ne _ _ _ _ _ (by omega), getD_set_ne _ _ _ _ _ (by omega)]
  · simp
  · rw [getD_set_self _ _ _ _ (by simp; omega)]
  · intro j hj1 hj2
    by_cases hje : j = 1
    · subst hje
      rw [getD_set_self _ _ _ _ (by simp; omega)]
    · by_cases hjr : j = Solver.argmaxLevel st (learnt.drop 2) 2 1
          (st.level (litVar (learnt.getD 1 0)))
      · subst hjr
        rw [getD_set_ne _ _ _ _ _ (fun he => hje he.symm),
          getD_set_self _ _ _ _ (by omega)]
        exact hr3 1 (Nat.le_refl 1) (by omega)
      · rw [getD_set_ne _ _ _ _ _ (fun he => hje he.symm),
          getD_set_ne _ _ _ _ _ (fun he => hjr he.symm)]
        exact hr3 j hj1 hj2

theorem clearSeen_vardata (tc : List Nat) : ∀ st : Solver,
    (Solver.clearSeen tc st).vardata = st.vardata := by
  induction tc with
  | nil => intro st; rfl
  | cons l ls ih =>
    intro st
    show (Solver.clearSeen ls
      { st with seen := listInsert st.seen (litVar l) 0 0 }).vardata = st.vardata
    rw [ih]

theorem analyze_post_spec (st3 : Solver) (p : Nat) (tail tc2 : List Nat)
    (learnt : List Nat) (bt : Nat) (stf : Solver)
    (hbl : Solver.analyzeBtLevel st3 (litNeg p :: tail) = (learnt, bt))
    (hs : stf = Solver.clearSeen tc2 st3) :
    learnt.getD 0 0 = litNeg p ∧
    (learnt.length = 1 → bt = 0) ∧
    (learnt.length ≠ 1 →
      bt = stf.level (litVar (learnt.getD 1 0)) ∧
      ∀ j, 1 ≤ j → j < learnt.length →
        stf.level (litVar (learnt.getD j 0)) ≤ bt) := by
  have hlv : ∀ x, stf.level x = st3.level x := by
    intro x
    subst hs
    unfold Solver.level
    rw [clearSeen_vardata]
  by_cases hl1 : (litNeg p :: tail).length = 1
  · unfold Solver.analyzeBtLevel at hbl
    rw [if_pos hl1] at hbl
    injection hbl with hA hB
    subst hA
    subst hB
    exact ⟨rfl, fun _ => rfl, fun hne => absurd hl1 hne⟩
  · obtain ⟨g1, g2, g3, g4⟩ := analyzeBtLevel_spec st3 (litNeg p :: tail) hl1
      (by simp only [List.length_cons] at hl1 ⊢; omega)
    simp only [hbl] at g1 g2 g3 g4
    refine ⟨?_, ?_, ?_⟩
    · rw [g1]
      rfl
    · intro h1
      exact absurd (g2 ▸ h1) hl1
    · intro hne
      refine ⟨?_, ?_⟩
      · rw [hlv]
        exact g3
      · intro j hj1 hj2
        rw [hlv]
        exact g4 j hj1 (by rw [← g2]; exact hj2)


/-- C5: whenever `analyze` succeeds, the asserting literal — the negation
of the final first-UIP literal `p` of the resolution loop, the sole
remaining current-level literal — sits at position 0 of the learned
clause, and the returned backtrack level is 0 for a unit learned clause
and otherwise the greatest decision level among the learned clause's
non-asserting literals (attained at position 1), i.e. the second-highest
level in the clause. -/
theorem analyze_asserting_and_btlevel (fuel confl : Nat) (st st1 : Solver)
    (p : Nat) (out : List Nat) (learnt : List Nat) (bt : Nat) (stf : Solver)
    (hloop : Solver.analyzeLoop st.decisionLevel fuel st (some confl) none
      (st.trail.length - 1) [] 0 = some (st1, p, out))
    (hana : Solver.analyze fuel confl st = some (learnt, bt, stf)) :
    learnt.getD 0 0 = litNeg p ∧
    (learnt.length = 1 → bt = 0) ∧
    (learnt.length ≠ 1 →
      bt = stf.level (litVar (learnt.getD 1 0)) ∧
      ∀ j, 1 ≤ j → j < learnt.length →
        stf.level (litVar (learnt.getD j 0)) ≤ bt) := by
  simp only [Solver.analyze, hloop] at hana
  split at hana
  · exact Option.noConfusion hana
  · rename_i st2v learnt1v tc2v heq
    split at heq
    · split at heq
      · exact Option.noConfusion heq
      · rename_i st2x ktx tcx hcc
        simp only [Option.some.injEq, Prod.mk.injEq] at heq
        obtain ⟨h1, h2, h3⟩ := heq
        subst h1
        subst h2
        subst h3
        simp only [Option.some.injEq, Prod.mk.injEq] at hana
        obtain ⟨hA, hB, hC⟩ := hana
        exact analyze_post_spec _ p ktx tcx learnt bt stf
          (by rw [← hA, ← hB]) hC.symm
    · split at heq
      · simp only [Option.some.injEq, Prod.mk.injEq] at heq
        obtain ⟨h1, h2, h3⟩ := heq
        subst h1
        subst h2
        subst h3
        simp only [Option.some.injEq, Prod.mk.injEq] at hana
        obtain ⟨hA, hB, hC⟩ := hana
        exact analyze_post_spec _ p (Solver.ccminBasic st1 out)
          (litNeg p :: out) learnt bt stf (by rw [← hA, ← hB]) hC.symm
      · simp only [Option.some.injEq, Prod.mk.injEq] at heq
        obtain ⟨h1, h2, h3⟩ := heq
        subst h1
        subst h2
        subst h3
        simp only [Option.some.injEq, Prod.mk.injEq] at hana
        obtain ⟨hA, hB, hC⟩ := hana
        exact analyze_post_spec _ p out (litNeg p :: out) learnt bt stf
          (by rw [← hA, ← hB]) hC.symm


set_option maxRecDepth 100000 in
/-- Witness for C5 on the concrete level-1 conflict of `demoAnalyzeState`:
the learned clause is the unit clause `{x0}` with backtrack level 0 and
asserting literal `x0 = ¬(¬x0)` at position 0. -/
theorem analyze_asserting_and_btlevel_witness :
    ([0] : List Nat).getD 0 0 = litNeg 1 ∧
    (([0] : List Nat).length = 1 → (0 : Nat) = 0) ∧
    (([0] : List Nat).length ≠ 1 →
      (0 : Nat) =
        (((Solver.analyze 50 1 demoAnalyzeState).getD
          ([], 0, demoAnalyzeState)).2.2).level
            (litVar (([0] : List Nat).getD 1 0)) ∧
      ∀ j, 1 ≤ j → j < ([0] : List Nat).length →
        (((Solver.analyze 50 1 demoAnalyzeState).getD
          ([], 0, demoAnalyzeState)).2.2).level
            (litVar (([0] : List Nat).getD j 0)) ≤ 0) :=
  analyze_asserting_and_btlevel 50 1 demoAnalyzeState
    ((Solver.analyzeLoop demoAnalyzeState.decisionLevel 50 demoAnalyzeState
      (some 1) none (demoAnalyzeState.trail.length - 1) [] 0).getD
        (demoAnalyzeState, 0, [])).1
    1 [] [0] 0
    ((Solver.analyze 50 1 demoAnalyzeState).getD ([], 0, demoAnalyzeState)).2.2
    (by with_unfolding_all rfl) (by with_unfolding_all rfl)

end

end Minisat
